import Mathlib

/-!
Shallow embedding of the schema-harmonization and spatial-join core of the
Maine-Fisheries-Dashboard repository, together with theorems settling the
frozen claims about its natural-language specification.

Conventions of the embedding:
* Python strings are modelled as lists of Unicode code points (`Str`), so
  that `strip`, `upper`, `lower` and lexicographic comparison are ordinary
  executable functions on `List Nat`.
* pandas cells are modelled by the inductive `Cell` (missing / string /
  rational number / date); `errors="coerce"` paths return `Cell.na`.
* DataFrames appear in two shapes: an association list from column name to
  column (for `src/io.py`, whose column resolver works over arbitrary
  names) and a fixed-field structure (for `src/cleaning.py`, which only
  touches a known set of canonical columns).
* pandas sorts with several `by` keys use `numpy.lexsort`, which is a
  stable sort; the embedding uses a stable insertion sort `isort`.
* `groupby(...).size()` sorts group keys (pandas default `sort=True`); the
  embedding builds the key list with `isort` over deduplicated keys.
-/

namespace MFD

/-- A Python string, as the list of its Unicode code points. -/
abbrev Str := List Nat

/-- Code points of a Lean string literal, for readable concrete inputs. -/
def strCodes (s : String) : Str := s.data.map Char.toNat

/-- Whitespace test used by `str.strip()` (space, tab, LF, CR, FF, VT). -/
def isSpaceCode (c : Nat) : Bool :=
  c == 32 || c == 9 || c == 10 || c == 13 || c == 12 || c == 11

/-- `str.strip()`: drop whitespace from both ends. -/
def trimStr (s : Str) : Str :=
  ((s.dropWhile isSpaceCode).reverse.dropWhile isSpaceCode).reverse

/-- `str.upper()` on one code point (ASCII letters, as in the data). -/
def upperCode (c : Nat) : Nat := if 97 ≤ c ∧ c ≤ 122 then c - 32 else c

/-- `str.lower()` on one code point (ASCII letters, as in the data). -/
def lowerCode (c : Nat) : Nat := if 65 ≤ c ∧ c ≤ 90 then c + 32 else c

/-- `str.upper()`. -/
def upperStr (s : Str) : Str := s.map upperCode

/-- `str.lower()`. -/
def lowerStr (s : Str) : Str := s.map lowerCode

/-- Strict lexicographic comparison of strings (Python `<` on `str`). -/
def lexLt : Str → Str → Bool
  | [], [] => false
  | [], _ :: _ => true
  | _ :: _, [] => false
  | a :: as, b :: bs => a < b || (a == b && lexLt as bs)

/-- Lexicographic `≤` on strings. -/
def lexLe (s t : Str) : Bool := lexLt s t || s == t

/-! ### Stable sorting

pandas `sort_values` with several `by` keys dispatches to `numpy.lexsort`,
which is a stable sort; a stable insertion sort models it. -/
/-- Insert into a sorted list, before the first element `b` with `le a b`. -/
def sinsert (le : α → α → Bool) (a : α) : List α → List α
  | [] => [a]
  | b :: bs => if le a b then a :: b :: bs else b :: sinsert le a bs

/-- Stable insertion sort with respect to a boolean `le`. -/
def isort (le : α → α → Bool) : List α → List α
  | [] => []
  | a :: as => sinsert le a (isort le as)

/-! ### Port-zone lookup builder (`src/queries/port_zone_lookup.py`) -/
/-- An input record for the lookup builder: only the `port` and `lob_zone`
columns matter; missing cells are `none`. -/
structure BRow where
  port : Option Str
  lob_zone : Option Str
deriving DecidableEq

/-- One row of the `counts` frame: occurrences of a `(port, lob_zone)` pair. -/
structure CRow where
  port : Str
  zone : Str
  n : Nat
deriving DecidableEq

/-- One row of the produced lookup table. -/
structure LRow where
  port : Str
  mapped_zone : Str
  n : Nat
  note : Str
deriving DecidableEq

/-- `seed = df.dropna(subset=["port","lob_zone"])` with `port` stripped and
`lob_zone` stripped and upper-cased, reduced to its two relevant columns. -/
def seedPairs (df : List BRow) : List (Str × Str) :=
  df.filterMap fun r =>
    match r.port, r.lob_zone with
    | some p, some z => some (trimStr p, upperStr (trimStr z))
    | _, _ => none

/-- Ordering of `(port, zone)` group keys used by `groupby` (keys sorted). -/
def pairLe (a b : Str × Str) : Bool :=
  lexLt a.1 b.1 || (a.1 == b.1 && lexLe a.2 b.2)

/-- `seed.groupby(["port","lob_zone"]).size()`: one row per distinct pair,
keys sorted, with the pair's occurrence count. -/
def groupCounts (ps : List (Str × Str)) : List CRow :=
  (isort pairLe ps.dedup).map fun k => ⟨k.1, k.2, ps.count k⟩

/-- Largest `n` among the rows of a port's group (`rank == 1` detector). -/
def maxCount (counts : List CRow) (p : Str) : Nat :=
  ((counts.filter fun r => r.port == p).map (·.n)).foldr max 0

/-- `counts[counts["rank"] == 1]`: rows whose dense descending rank is 1,
i.e. whose count equals the maximum count of their port. -/
def rankOneRows (counts : List CRow) : List CRow :=
  counts.filter fun r => r.n == maxCount counts r.port

/-- Zones tied at the maximum count for `p` (the `nunique` input). -/
def tiedZones (counts : List CRow) (p : Str) : List Str :=
  ((rankOneRows counts).filter fun r => r.port == p).map (·.zone)

/-- The literal note string `"AMBIGUOUS"`. -/
def ambiguousNote : Str := strCodes "AMBIGUOUS"

/-- Note attached to a port: `"AMBIGUOUS"` when at least two distinct zones
share the port's maximum count, else the empty string. -/
def noteFor (counts : List CRow) (p : Str) : Str :=
  if 1 < (tiedZones counts p).dedup.length then ambiguousNote else []

/-- Rank-one rows with their note column attached. -/
def notedWinners (counts : List CRow) : List LRow :=
  (rankOneRows counts).map fun r => ⟨r.port, r.zone, r.n, noteFor counts r.port⟩

/-- Key of `sort_values(["port","n"], ascending=[True, False])` (stable). -/
def rowLe (a b : LRow) : Bool :=
  lexLt a.port b.port || (a.port == b.port && decide (b.n ≤ a.n))

/-- `drop_duplicates(subset=["port"], keep="first")`: keep a row only when
its port has not been seen yet. -/
def dropDupPortsAux (seen : List Str) : List LRow → List LRow
  | [] => []
  | r :: rest =>
    if r.port ∈ seen then dropDupPortsAux seen rest
    else r :: dropDupPortsAux (r.port :: seen) rest

/-- `drop_duplicates(subset=["port"], keep="first")`. -/
def dropDupPorts (l : List LRow) : List LRow := dropDupPortsAux [] l

/-- Key of the final `sort_values("port")`. -/
def portLe (a b : LRow) : Bool := lexLe a.port b.port

/-- `build_port_zone_lookup`: count `(port, zone)` occurrences over records
that carry both, keep each port's top-ranked zones, flag ties as
`AMBIGUOUS`, keep the first row per port after the stable
`(port asc, n desc)` sort, and sort the result by port. -/
def build_port_zone_lookup (df : List BRow) : List LRow :=
  isort portLe (dropDupPorts (isort rowLe (notedWinners (groupCounts (seedPairs df)))))

/-- Tie-scenario input: one port with 3 records of zone `A` and 3 of zone `B`. -/
def tieDf : List BRow :=
  [⟨some (strCodes "P"), some (strCodes "A")⟩,
   ⟨some (strCodes "P"), some (strCodes "A")⟩,
   ⟨some (strCodes "P"), some (strCodes "A")⟩,
   ⟨some (strCodes "P"), some (strCodes "B")⟩,
   ⟨some (strCodes "P"), some (strCodes "B")⟩,
   ⟨some (strCodes "P"), some (strCodes "B")⟩]

/-- The relation along which the rank-one rows are produced sorted. -/
def crowLe (r s : CRow) : Prop := pairLe (r.port, r.zone) (s.port, s.zone) = true

/-- The same relation on lookup rows. -/
def lrowLe (r s : LRow) : Prop :=
  pairLe (r.port, r.mapped_zone) (s.port, s.mapped_zone) = true

/-! ### Applying the port-zone lookup (`apply_port_zone_lookup`)

The function left-joins the lookup (and, when the overrides file exists, the
override table) on the stripped `port` and fills only missing `lob_zone`
values: `out["lob_zone"] = out["lob_zone"].fillna(out["mapped_zone"])`.
Lookup and override tables are keyed by unique ports, so the pandas left
merge is first-match lookup. -/
/-- Look up a port in a `port → mapped_zone` table (pandas left merge on a
uniquely-keyed right table; a missing port key matches nothing). -/
def lookupZone (tbl : List (Str × Str)) (p : Str) : Option Str :=
  (tbl.find? fun e => e.1 == p).map (·.2)

/-- The mapping used to backfill: the override value when the override
table is supplied and has the port, else the automatic lookup value
(`out["mapped_zone"] = out["mapped_zone_override"].fillna(out["mapped_zone"])`). -/
def mappedZone (lk : List (Str × Str)) (ov : Option (List (Str × Str)))
    (p : Str) : Option Str :=
  match ov with
  | none => lookupZone lk p
  | some o =>
    match lookupZone o p with
    | some c => some c
    | none => lookupZone lk p

/-- One record as seen by `apply_port_zone_lookup`. -/
structure ARow where
  port : Option Str
  lob_zone : Option Str
deriving DecidableEq

/-- Per-record effect of `apply_port_zone_lookup`: strip the port, compute
the (override-first) mapped zone, and fill `lob_zone` only when missing. -/
def applyRow (lk : List (Str × Str)) (ov : Option (List (Str × Str)))
    (r : ARow) : ARow :=
  let p := r.port.map trimStr
  let mapped := match p with
    | none => none
    | some q => mappedZone lk ov q
  { port := p,
    lob_zone := match r.lob_zone with
      | some z => some z
      | none => mapped }

/-- `apply_port_zone_lookup(df, lookup, overrides)`; `ov = none` models an
absent overrides file. -/
def apply_port_zone_lookup (df : List ARow) (lk : List (Str × Str))
    (ov : Option (List (Str × Str))) : List ARow :=
  df.map (applyRow lk ov)

/-! ### Year-over-year categorization (`src/queries/metrics.py`, `yoy_by_zone`)

Floating-point totals are modelled as rationals. Absent prior totals become
`0.0` through `pd.concat(...).fillna(0.0)` before the percentage is taken. -/
/-- The YoY category labels produced by `yoy_by_zone`. -/
inductive YoyCat
  | increase
  | decrease
  | no_change
  | no_baseline
deriving DecidableEq

/-- `pct(c, p)`: `None` when the prior total is zero, else percent change. -/
def yoyPct (c p : ℚ) : Option ℚ :=
  if p = 0 then none else some ((c - p) / p * 100)

/-- `cat(p)`: `no_baseline` for an undefined percentage, `no_change` inside
the `zero_band`, else the sign decides. The band defaults to `0.5`. -/
def yoyCatOf (pq : Option ℚ) (zero_band : ℚ := 1/2) : YoyCat :=
  match pq with
  | none => YoyCat.no_baseline
  | some p =>
    if |p| < zero_band then YoyCat.no_change
    else if p > 0 then YoyCat.increase else YoyCat.decrease

/-- The category of one zone row of `yoy_by_zone`, from the (possibly
absent) current and prior totals; absent totals are filled with `0.0`. -/
def zoneCategory (cur prev : Option ℚ) (zero_band : ℚ := 1/2) : YoyCat :=
  yoyCatOf (yoyPct (cur.getD 0) (prev.getD 0)) zero_band

/-! ### Choropleth zone keys and fills (`src/viz/maps.py`, `_choropleth_layer`)

Feature properties are JSON-ish values; the zone key is produced by the
Python expression `str(z).strip().upper()` over the first truthy value of
the `ZONE`/`zone`/`Zone`/`ZONE_ID`/`LOB_ZONE` properties. -/
/-- A GeoJSON property value (the encodings the repo's data uses). -/
inductive Jv
  | jstr (s : Str)
  | jint (n : Int)
deriving DecidableEq

/-- Python truthiness of a property value. -/
def truthy : Jv → Bool
  | .jstr s => !s.isEmpty
  | .jint n => n != 0

/-- `props.get(k)`. -/
def getProp (props : List (Str × Jv)) (k : Str) : Option Jv :=
  (props.find? fun e => e.1 == k).map (·.2)

/-- Python `a or b`: `a` when truthy, else `b`. -/
def pyOr (a b : Option Jv) : Option Jv :=
  match a with
  | some v => if truthy v then some v else b
  | none => b

/-- `props.get("ZONE") or props.get("zone") or props.get("Zone") or
props.get("ZONE_ID") or props.get("LOB_ZONE")`. -/
def zoneRaw (props : List (Str × Jv)) : Option Jv :=
  pyOr (getProp props (strCodes "ZONE"))
    (pyOr (getProp props (strCodes "zone"))
      (pyOr (getProp props (strCodes "Zone"))
        (pyOr (getProp props (strCodes "ZONE_ID"))
          (getProp props (strCodes "LOB_ZONE")))))

/-- Decimal digits of a natural number. -/
def natToStr (n : Nat) : Str := (Nat.toDigits 10 n).map Char.toNat

/-- Python `str()` of an integer. -/
def intToStr (n : Int) : Str :=
  if n < 0 then 45 :: natToStr (-n).toNat else natToStr n.toNat

/-- Python `str()` of a property value. -/
def strOfJv : Jv → Str
  | .jstr s => s
  | .jint n => intToStr n

/-- `__zone_key__ = str(z).strip().upper() if z is not None else None`. -/
def zoneKey (props : List (Str × Jv)) : Option Str :=
  match zoneRaw props with
  | none => none
  | some v => some (upperStr (trimStr (strOfJv v)))

/-- Normalized aggregate rows:
`join["__zone_key__"] = join["zone"].astype(str).str.upper().str.strip()`. -/
def normZdf (zdf : List (Str × ℚ)) : List (Str × ℚ) :=
  zdf.map fun r => (trimStr (upperStr r.1), r.2)

/-- Python dict lookup over rows inserted in order (later rows win). -/
def dictLookup (rows : List (Str × ℚ)) (k : Str) : Option ℚ :=
  (rows.reverse.find? fun r => r.1 == k).map (·.2)

/-- `totals.get(z, 0.0)`; a `None` key is absent from the string-keyed dict. -/
def totalsGet (zdf : List (Str × ℚ)) (k : Option Str) : ℚ :=
  match k with
  | none => 0
  | some key => (dictLookup (normZdf zdf) key).getD 0

/-- The dict's value list (one value per distinct key, last write wins). -/
def totalsValues (zdf : List (Str × ℚ)) : List ℚ :=
  ((normZdf zdf).map Prod.fst).dedup.map fun k => (dictLookup (normZdf zdf) k).getD 0

/-- Larger of two rationals (Python `max` applied pairwise). -/
def pyMaxQ (a b : ℚ) : ℚ := if a ≤ b then b else a

/-- `max_val = max(totals.values()) if totals else 1.0`. -/
def maxVal (zdf : List (Str × ℚ)) : ℚ :=
  match totalsValues zdf with
  | [] => 1
  | v :: vs => vs.foldl pyMaxQ v

/-- Python `int()`: truncation toward zero. -/
def truncQ (q : ℚ) : Int :=
  if 0 ≤ q then Int.ofNat (q.num.toNat / q.den)
  else -Int.ofNat ((-q.num).toNat / q.den)

/-- Python `min` on two integers. -/
def pyMin (a b : Int) : Int := if a ≤ b then a else b

/-- The per-feature annotation `_choropleth_layer` writes back into the
feature properties: `metric_total` and `fill_color`. -/
structure ChoroAnnot where
  metric_total : ℚ
  fill_color : List Int
deriving DecidableEq

/-- One feature's annotation: value from the totals dict (default `0.0`)
and the light-to-dark ramp `[15, 108, 141, min(255, intensity + 25)]` with
`intensity = 30 + int(200 * val / max_val)` when `max_val > 0`, else 30. -/
def annotateFeature (zdf : List (Str × ℚ)) (props : List (Str × Jv)) : ChoroAnnot :=
  ⟨totalsGet zdf (zoneKey props),
   [15, 108, 141,
    pyMin 255 ((if maxVal zdf > 0
        then 30 + truncQ (200 * (totalsGet zdf (zoneKey props) / maxVal zdf))
        else 30) + 25)]⟩

/-- All feature annotations of `_choropleth_layer`. -/
def choroplethAnnotations (features : List (List (Str × Jv)))
    (zdf : List (Str × ℚ)) : List ChoroAnnot :=
  features.map (annotateFeature zdf)

/-- Aggregate table used in the C5 scenarios: zone `A` with zero activity,
zone `B` with activity 5. -/
def zdfC5 : List (Str × ℚ) := [(strCodes "A", 0), (strCodes "B", 5)]

/-! ### Batch validation (`src/etl/clean_transform.py`, `validate`)

`validate` runs after `normalize_types` has coerced the numeric columns, so
its input rows carry optional rationals. It raises `ValueError` — modelled
as `Except.error` — for the whole batch; it never filters rows, so there is
no partial acceptance by construction. The error payloads carry exactly
what the raised messages interpolate: the out-of-range year error carries
the offending year values (`f"Found out-of-range years: {bad}"`), the
negative-value error carries only the column name
(`f"Negative values detected in column {c}"`). -/
/-- A record as seen by `validate` (coerced numeric columns). -/
structure VRow where
  year : Option ℚ
  weight : Option ℚ
  value : Option ℚ
  trip_n : Option ℚ
  harv_n : Option ℚ
deriving DecidableEq

/-- The errors `validate` can raise, with the data their messages name. -/
inductive VErr
  | outOfRangeYears (bad : List ℚ)
  | negativeValues (c : String)
deriving DecidableEq

deriving instance DecidableEq for Except

/-- The numeric values (beyond a column name) interpolated into the raised
message: the year error lists the offending years; the negative-value
message names only the column. -/
def errYearsNamed : VErr → List ℚ
  | .outOfRangeYears bad => bad
  | .negativeValues _ => []

/-- `year.between(1900, 2100)` (inclusive). -/
def yearOk (y : ℚ) : Bool := decide (1900 ≤ y) && decide (y ≤ 2100)

/-- `(df[c].dropna() < 0).any()`. -/
def hasNeg (df : List VRow) (get : VRow → Option ℚ) : Bool :=
  (df.filterMap get).any fun q => decide (q < 0)

/-- pandas `Series.unique()`: distinct values in first-occurrence order. -/
def uniqFirstAux (seen : List ℚ) : List ℚ → List ℚ
  | [] => []
  | x :: xs =>
    if x ∈ seen then uniqFirstAux seen xs else x :: uniqFirstAux (x :: seen) xs

/-- pandas `Series.unique()` as used on the offending years. -/
def uniqueKeepFirst (l : List ℚ) : List ℚ := uniqFirstAux [] l

/-- `validate(df)`: reject the whole batch when any non-missing year is
outside 1900–2100 (naming the distinct offending years) or when any of
`weight`, `value`, `trip_n`, `harv_n` has a negative entry (naming that
column, checked in declaration order). -/
def validate (df : List VRow) : Except VErr Unit :=
  if (df.filterMap (·.year)).all yearOk then
    if hasNeg df (·.weight) then Except.error (VErr.negativeValues "weight")
    else if hasNeg df (·.value) then Except.error (VErr.negativeValues "value")
    else if hasNeg df (·.trip_n) then Except.error (VErr.negativeValues "trip_n")
    else if hasNeg df (·.harv_n) then Except.error (VErr.negativeValues "harv_n")
    else Except.ok ()
  else
    Except.error (VErr.outOfRangeYears
      (uniqueKeepFirst ((df.filterMap (·.year)).filter fun y => !(yearOk y))))

/-! ### Schema normalizer (`src/io.py`, `_pick_col` and `_standardize`)

A frame is an ordered association of column names to columns of cells.
Conventions: `pd.to_datetime(..., errors="coerce")` failures are `Cell.na`;
`astype(int)` is modelled as integer coercion whose failure yields a
missing cell (pandas would raise there; none of the modelled paths are
exercised with uncoercible cells); `astype(str)` of a non-integral numeric
is rendered as `num/den`, which, like its Python counterpart, never parses
as a date. `to_datetime` accepts ISO-shaped `y-m-d`, `y-m` and `y` strings,
the formats the standardizer constructs, with month-resolution Timestamp
bounds (1677-10 .. 2262-04). -/
/-- A calendar date. -/
structure Ymd where
  y : Int
  m : Int
  d : Int
deriving DecidableEq

/-- A pandas cell: missing, text, numeric, or datetime. -/
inductive Cell
  | na
  | str (s : Str)
  | num (q : ℚ)
  | date (dt : Ymd)
deriving DecidableEq

/-- Days in a month (proleptic Gregorian). -/
def daysInMonth (y m : Int) : Int :=
  if m = 2 then (if y % 4 = 0 ∧ (y % 100 ≠ 0 ∨ y % 400 = 0) then 29 else 28)
  else if m = 4 ∨ m = 6 ∨ m = 9 ∨ m = 11 then 30 else 31

/-- Construct a valid `Timestamp`-representable date, else `none` (NaT). -/
def mkDate (y m d : Int) : Option Ymd :=
  if 1 ≤ m ∧ m ≤ 12 ∧ 1 ≤ d ∧ d ≤ daysInMonth y m
      ∧ (y > 1677 ∨ (y = 1677 ∧ m ≥ 10))
      ∧ (y < 2262 ∨ (y = 2262 ∧ m ≤ 4)) then
    some ⟨y, m, d⟩
  else none

/-- Digits of a nonempty all-digit string, as a number. -/
def digitsToNat (s : Str) : Option Nat :=
  if s ≠ [] ∧ s.all (fun c => 48 ≤ c && c ≤ 57) then
    some (s.foldl (fun a c => a * 10 + (c - 48)) 0)
  else none

/-- Optional-sign integer numeral. -/
def intFromStr (s : Str) : Option Int :=
  match s with
  | 45 :: rest => (digitsToNat rest).map fun n => -(n : Int)
  | _ => (digitsToNat s).map fun n => (n : Int)

/-- Parse an ISO-shaped date string (`y-m-d`, `y-m` or bare `y`). -/
def parseIsoDate (s : Str) : Option Ymd :=
  match s.splitOn 45 with
  | [ys, ms, ds] => do
    let y ← digitsToNat ys
    let m ← digitsToNat ms
    let d ← digitsToNat ds
    mkDate y m d
  | [ys, ms] => do
    let y ← digitsToNat ys
    let m ← digitsToNat ms
    mkDate y m 1
  | [ys] => do
    let y ← digitsToNat ys
    mkDate y 1 1
  | _ => none

/-- Civil date from days since the Unix epoch. -/
def civilFromDays (z0 : Int) : Ymd :=
  let z := z0 + 719468
  let era := Int.fdiv z 146097
  let doe := z - era * 146097
  let yoe := Int.fdiv (doe - Int.fdiv doe 1460 + Int.fdiv doe 36524
      - Int.fdiv doe 146096) 365
  let doy := doe - (365 * yoe + Int.fdiv yoe 4 - Int.fdiv yoe 100)
  let mp := Int.fdiv (5 * doy + 2) 153
  let d := doy - Int.fdiv (153 * mp + 2) 5 + 1
  let m := mp + (if mp < 10 then 3 else -9)
  ⟨yoe + era * 400 + (if m ≤ 2 then 1 else 0), m, d⟩

/-- `pd.to_datetime` on a numeric cell: nanoseconds since the epoch. -/
def nsToDate (q : ℚ) : Ymd := civilFromDays (Int.fdiv (truncQ q) 86400000000000)

/-- Python `str()` of a cell (`astype(str)`); `NaN` prints as `"nan"`. -/
def cellToStrPy : Cell → Str
  | .na => strCodes "nan"
  | .str s => s
  | .num q =>
    if q.den = 1 then intToStr q.num else intToStr q.num ++ [47] ++ natToStr q.den
  | .date dt =>
    intToStr dt.y ++ [45] ++ intToStr dt.m ++ [45] ++ intToStr dt.d

/-- `pd.to_datetime(col, errors="coerce")` cellwise. -/
def toDatetime (c : Cell) : Cell :=
  match c with
  | .na => .na
  | .date dt => .date dt
  | .str s =>
    match parseIsoDate (trimStr s) with
    | some dt => .date dt
    | none => .na
  | .num q => .date (nsToDate q)

/-- `astype(int)` cellwise (failure modelled as missing). -/
def cellToInt : Cell → Option Int
  | .num q => some (truncQ q)
  | .str s => intFromStr (trimStr s)
  | .na => none
  | .date _ => none

/-- `.dt.year` of a datetime cell. -/
def dtYear : Cell → Cell
  | .date dt => .num (dt.y : ℚ)
  | _ => .na

/-- `to_datetime(dict(year=y, month=m, day=1), errors="coerce")` cellwise. -/
def synthDateYM (cy cm : Cell) : Cell :=
  match cellToInt cy, cellToInt cm with
  | some y, some m =>
    match mkDate y m 1 with
    | some dt => .date dt
    | none => .na
  | _, _ => .na

/-- Packed year-month cell: digits of `str(cell)`, first 4 as year, next 2
as month, `"-01"` appended, then parsed. -/
def synthDateYYYYMM (c : Cell) : Cell :=
  let s := (cellToStrPy c).filter fun ch => 48 ≤ ch && ch ≤ 57
  toDatetime (.str (s.take 4 ++ [45] ++ ((s.drop 4).take 2) ++ [45, 48, 49]))

/-- `astype(int)` as the annual path applies it to the year column. -/
def yearToInt (c : Cell) : Cell :=
  match cellToInt c with
  | some i => .num (i : ℚ)
  | none => .na

/-- `to_datetime(year.astype(str) + "-01-01", errors="coerce")` cellwise. -/
def dateFromYearCell (c : Cell) : Cell :=
  toDatetime (.str (cellToStrPy c ++ strCodes "-01-01"))

/-- A DataFrame for the schema normalizer: ordered named columns. -/
abbrev IoFrame := List (Str × List Cell)

/-- `n in df.columns`. -/
def hasCol (f : IoFrame) (n : Str) : Bool := (f.map Prod.fst).contains n

/-- `df[n]` (first column with that label). -/
def getCol (f : IoFrame) (n : Str) : Option (List Cell) :=
  (f.find? fun p => p.1 == n).map (·.2)

/-- `df[n] = col`: replace the first column labelled `n`, else append. -/
def setCol : IoFrame → Str → List Cell → IoFrame
  | [], n, col => [(n, col)]
  | p :: ps, n, col =>
    if p.1 == n then (n, col) :: ps else p :: setCol ps n col

/-- `df.rename(columns={old: new})`. -/
def renameCol (f : IoFrame) (old new : Str) : IoFrame :=
  f.map fun p => if p.1 == old then (new, p.2) else p

/-- `{c.lower(): c for c in df.columns}[key]` (later columns win). -/
def lowerLookup (cols : List Str) (key : Str) : Option Str :=
  cols.reverse.find? fun nm => lowerStr nm == key

/-- `_pick_col`: first exact candidate, else first case-insensitive match
(resolved to the frame's column name), else `none`. -/
def pick_col (cols : List Str) (cands : List Str) : Option Str :=
  match cands.find? (fun c => cols.contains c) with
  | some c => some c
  | none => cands.findSome? fun c => lowerLookup cols (lowerStr c)

/-- Candidate lists of `_standardize`, in declared order. -/
def dateCands : List Str :=
  [strCodes "date", strCodes "landing_date", strCodes "landed_date",
   strCodes "observation_date"]

def yearCands : List Str := [strCodes "year", strCodes "Year", strCodes "YEAR"]

def monthCands : List Str :=
  [strCodes "month", strCodes "Month", strCodes "MONTH", strCodes "month_num",
   strCodes "mo"]

def ymCands : List Str := [strCodes "yyyymm", strCodes "YYYYMM"]

def speciesCands : List Str :=
  [strCodes "species", strCodes "Species", strCodes "species_name",
   strCodes "species_group", strCodes "common_name"]

def gearCands : List Str := [strCodes "gear", strCodes "Gear", strCodes "gear_type"]

def zoneCands : List Str :=
  [strCodes "zone", strCodes "Zone", strCodes "ZONE", strCodes "lobster_zone"]

def portCands : List Str :=
  [strCodes "port", strCodes "Port", strCodes "landing_port", strCodes "port_name"]

def valueCands : List Str :=
  [strCodes "value", strCodes "landings", strCodes "landed_weight_lbs",
   strCodes "pounds", strCodes "lbs", strCodes "weight_lbs",
   strCodes "landed_weight", strCodes "landings_lbs", strCodes "quantity",
   strCodes "landed_pounds"]

def revenueCands : List Str :=
  [strCodes "revenue_usd", strCodes "dockside_value", strCodes "ex_vessel_value",
   strCodes "exvessel_value", strCodes "value_usd", strCodes "revenue",
   strCodes "dollars"]

/-- The date resolution of `_standardize`: resolve a date column, else
synthesize from (year, month), else from a packed year-month numeral, else
from a bare year. -/
def stdDatesCore (f : IoFrame) : IoFrame :=
  match pick_col (f.map Prod.fst) dateCands with
  | some dc =>
    setCol (renameCol f dc (strCodes "date")) (strCodes "date")
      (((getCol (renameCol f dc (strCodes "date")) (strCodes "date")).getD []).map
        toDatetime)
  | none =>
    match pick_col (f.map Prod.fst) yearCands, pick_col (f.map Prod.fst) monthCands with
    | some yc, some mc =>
      setCol f (strCodes "date")
        (List.zipWith synthDateYM ((getCol f yc).getD [])
          ((getCol f mc).getD []))
    | oyc, omc =>
      match pick_col (f.map Prod.fst) ymCands with
      | some ymc =>
        setCol f (strCodes "date")
          (((getCol f ymc).getD []).map synthDateYYYYMM)
      | none =>
        match oyc, omc with
        | some yc, _ =>
          setCol (setCol f (strCodes "year") (((getCol f yc).getD []).map yearToInt))
            (strCodes "date")
            (((getCol (setCol f (strCodes "year")
                (((getCol f yc).getD []).map yearToInt)) (strCodes "year")).getD
              []).map dateFromYearCell)
        | _, _ => f

/-- `if "year" not in df.columns and "date" in df.columns:
df["year"] = df["date"].dt.year`. -/
def yearGuard (g : IoFrame) : IoFrame :=
  if hasCol g (strCodes "year") then g
  else if hasCol g (strCodes "date") then
    setCol g (strCodes "year") (((getCol g (strCodes "date")).getD []).map dtYear)
  else g

/-- The date/year portion of `_standardize` (its lines 44–73). -/
def stdDates (f : IoFrame) : IoFrame := yearGuard (stdDatesCore f)

/-- Resolve a candidate list and rename the hit to the canonical name
(`if c and c != canon: df.rename(columns={c: canon})`). -/
def resolveRename (f : IoFrame) (cands : List Str) (canon : Str) : IoFrame :=
  match pick_col (f.map Prod.fst) cands with
  | some c => if c == canon then f else renameCol f c canon
  | none => f

/-- `astype("string").str.strip()` cellwise. -/
def strColCell : Cell → Cell
  | .na => .na
  | c => .str (trimStr (cellToStrPy c))

/-- `if n in df.columns: df[n] = df[n].astype("string").str.strip()`. -/
def stripColIfPresent (f : IoFrame) (n : Str) : IoFrame :=
  if hasCol f n then setCol f n (((getCol f n).getD []).map strColCell) else f

/-- `_standardize`: date/year resolution, then the column renames for
species, gear, zone (stripped), port (stripped), landed quantity and
revenue, and the final species/gear cleanup. -/
def standardize (f : IoFrame) : IoFrame :=
  let f1 := stdDates f
  let f2 := resolveRename f1 speciesCands (strCodes "species")
  let f3 := resolveRename f2 gearCands (strCodes "gear")
  let f4 := resolveRename f3 zoneCands (strCodes "zone")
  let f5 := stripColIfPresent f4 (strCodes "zone")
  let f6 := resolveRename f5 portCands (strCodes "port")
  let f7 := stripColIfPresent f6 (strCodes "port")
  let f8 := resolveRename f7 valueCands (strCodes "value")
  let f9 := resolveRename f8 revenueCands (strCodes "revenue_usd")
  let f10 := stripColIfPresent f9 (strCodes "species")
  stripColIfPresent f10 (strCodes "gear")

/-! ### Dashboard cleaning pipeline (`src/cleaning.py`)

`cleaning.py` touches a fixed set of column names, so its frame is a
structure of optional columns; unknown columns (`other`) pass through
untouched. The rename of `standardize_headers` prefers the raw name when
both the raw and the canonical name are present — real pandas would produce
duplicate labels there and fail on the later `.str` accessor, so the
idempotence theorem assumes at most one of each pair, matching the domain
on which the pipeline runs at all. -/
/-- `pd.to_numeric(..., errors="coerce")` on a decimal numeral body. -/
def parseDecimal (s : Str) : Option ℚ :=
  match s.splitOn 46 with
  | [ip] =>
    if ip ≠ [] ∧ ip.all (fun c => 48 ≤ c && c ≤ 57) then
      some ((s.foldl (fun a c => a * 10 + (c - 48)) 0 : Nat) : ℚ)
    else none
  | [ip, fp] =>
    if (ip ≠ [] ∨ fp ≠ []) ∧ ip.all (fun c => 48 ≤ c && c ≤ 57)
        ∧ fp.all (fun c => 48 ≤ c && c ≤ 57) then
      some (((ip.foldl (fun a c => a * 10 + (c - 48)) 0 : Nat) : ℚ)
        + ((fp.foldl (fun a c => a * 10 + (c - 48)) 0 : Nat) : ℚ)
          / ((10 : ℚ) ^ fp.length))
    else none
  | _ => none

/-- `pd.to_numeric(..., errors="coerce")` on a full numeral string. -/
def parseNumeric (s0 : Str) : Option ℚ :=
  match trimStr s0 with
  | 45 :: rest => (parseDecimal rest).map Neg.neg
  | 43 :: rest => parseDecimal rest
  | s => parseDecimal s

/-- `pd.to_numeric(col, errors="coerce")` cellwise (datetime cells, on
which pandas raises, coerce to missing; no modelled path feeds them in). -/
def toNumeric : Cell → Cell
  | .num q => .num q
  | .na => .na
  | .str s =>
    match parseNumeric s with
    | some q => .num q
    | none => .na
  | .date _ => .na

/-- `pd.to_numeric(...).astype("Int64")` cellwise: non-integral values, on
which the `Int64` cast raises, coerce to missing. -/
def yearCoerce (c : Cell) : Cell :=
  match toNumeric c with
  | .num q => if q.den = 1 then .num q else .na
  | x => x

/-- The canonical zone letters `A`–`G` as code-point strings. -/
def zoneLetterCodes : List Str :=
  [[65], [66], [67], [68], [69], [70], [71]]

/-- One `normalize_zone` cell: upper-case the stripped string form, then
keep it only when it is one of `A`–`G` (else missing). -/
def znCell (c : Cell) : Cell :=
  match c with
  | .na => .na
  | c' =>
    if upperStr (trimStr (cellToStrPy c')) ∈ zoneLetterCodes then
      .str (upperStr (trimStr (cellToStrPy c')))
    else .na

/-- The frame `cleaning.py` operates on: the canonical columns it reads or
writes, plus untouched extra columns. -/
structure CFrame where
  date : Option (List Cell) := none
  year : Option (List Cell) := none
  species : Option (List Cell) := none
  gear : Option (List Cell) := none
  zone : Option (List Cell) := none
  port : Option (List Cell) := none
  county : Option (List Cell) := none
  weight_type : Option (List Cell) := none
  weight : Option (List Cell) := none
  value : Option (List Cell) := none
  lob_zone : Option (List Cell) := none
  trip_n : Option (List Cell) := none
  harv_n : Option (List Cell) := none
  trips_n : Option (List Cell) := none
  harvesters_n : Option (List Cell) := none
  landings_lbs : Option (List Cell) := none
  revenue_usd : Option (List Cell) := none
  other : List (Str × List Cell) := []
deriving DecidableEq

/-- `standardize_headers`: rename `lob_zone → zone`, `trip_n → trips_n`,
`harv_n → harvesters_n`. -/
def standardize_headers (f : CFrame) : CFrame :=
  { f with
    zone := match f.lob_zone with
      | some c => some c
      | none => f.zone
    lob_zone := none
    trips_n := match f.trip_n with
      | some c => some c
      | none => f.trips_n
    trip_n := none
    harvesters_n := match f.harv_n with
      | some c => some c
      | none => f.harvesters_n
    harv_n := none }

/-- `clean_types`: datetime-coerce `date`; derive `year` from `date` when
absent and integer-coerce it; trim the six categorical text columns. -/
def clean_types (f : CFrame) : CFrame :=
  { f with
    date := f.date.map (List.map toDatetime)
    year := (match f.year with
      | some y => some y
      | none => (f.date.map (List.map toDatetime)).map (List.map dtYear)).map
        (List.map yearCoerce)
    species := f.species.map (List.map strColCell)
    gear := f.gear.map (List.map strColCell)
    zone := f.zone.map (List.map strColCell)
    port := f.port.map (List.map strColCell)
    county := f.county.map (List.map strColCell)
    weight_type := f.weight_type.map (List.map strColCell) }

/-- `normalize_zone`: upper-case the zone column and filter to `A`–`G`. -/
def normalize_zone (f : CFrame) : CFrame :=
  { f with zone := f.zone.map (List.map znCell) }

/-- `normalize_metrics`: derive `landings_lbs` from `weight` and
`revenue_usd` from `value` without overwriting the originals. -/
def normalize_metrics (f : CFrame) : CFrame :=
  { f with
    landings_lbs := match f.weight with
      | some w => some (w.map toNumeric)
      | none => f.landings_lbs
    revenue_usd := match f.value with
      | some v => some (v.map toNumeric)
      | none => f.revenue_usd }

/-- `prepare_dataframe`: the dashboard's unified preprocessing pipeline. -/
def prepare_dataframe (f : CFrame) : CFrame :=
  normalize_metrics (normalize_zone (clean_types (standardize_headers f)))

/-- A frame whose only date signal is a packed `YYYYMM` column. -/
def fYm : IoFrame := [(strCodes "YYYYMM", [Cell.num 202007, Cell.na])]

/-- Batch containing `year = 1805` (all other fields benign). -/
def df1805 : List VRow := [⟨some 1805, some 1, some 1, some 1, some 1⟩]

/-- Batch containing a negative weight `-5` (years benign). -/
def dfNegW : List VRow := [⟨some 2000, some (-5), some 1, some 1, some 1⟩]

/-! ### Theorems -/

theorem lexLt_irrefl (s : Str) : lexLt s s = false := by
  induction s with
  | nil => rfl
  | cons a as ih => simp [lexLt, ih]

theorem lexLt_trans {a b c : Str} (h₁ : lexLt a b = true) (h₂ : lexLt b c = true) :
    lexLt a c = true := by
  induction a generalizing b c with
  | nil =>
    cases b with
    | nil => simp [lexLt] at h₁
    | cons y ys =>
      cases c with
      | nil => simp [lexLt] at h₂
      | cons z zs => simp [lexLt]
  | cons x xs ih =>
    cases b with
    | nil => simp [lexLt] at h₁
    | cons y ys =>
      cases c with
      | nil => simp [lexLt] at h₂
      | cons z zs =>
        simp only [lexLt, Bool.or_eq_true, Bool.and_eq_true, beq_iff_eq,
          decide_eq_true_eq] at h₁ h₂ ⊢
        rcases h₁ with h₁ | ⟨rfl, h₁⟩
        · rcases h₂ with h₂ | ⟨rfl, h₂⟩
          · exact Or.inl (h₁.trans h₂)
          · exact Or.inl h₁
        · rcases h₂ with h₂ | ⟨rfl, h₂⟩
          · exact Or.inl h₂
          · exact Or.inr ⟨rfl, ih h₁ h₂⟩

theorem lexLt_total (s t : Str) : lexLt s t = true ∨ lexLt t s = true ∨ s = t := by
  induction s generalizing t with
  | nil =>
    cases t with
    | nil => exact Or.inr (Or.inr rfl)
    | cons b bs => exact Or.inl (by simp [lexLt])
  | cons a as ih =>
    cases t with
    | nil => exact Or.inr (Or.inl (by simp [lexLt]))
    | cons b bs =>
      rcases Nat.lt_trichotomy a b with hab | rfl | hab
      · exact Or.inl (by simp [lexLt, hab])
      · rcases ih bs with h | h | rfl
        · exact Or.inl (by simp [lexLt, h])
        · exact Or.inr (Or.inl (by simp [lexLt, h]))
        · exact Or.inr (Or.inr rfl)
      · exact Or.inr (Or.inl (by simp [lexLt, hab]))

theorem lexLe_refl (s : Str) : lexLe s s = true := by simp [lexLe]

theorem lexLe_total (s t : Str) : lexLe s t = true ∨ lexLe t s = true := by
  rcases lexLt_total s t with h | h | rfl
  · exact Or.inl (by simp [lexLe, h])
  · exact Or.inr (by simp [lexLe, h])
  · exact Or.inl (lexLe_refl s)

theorem lexLe_trans {a b c : Str} (h₁ : lexLe a b = true) (h₂ : lexLe b c = true) :
    lexLe a c = true := by
  simp only [lexLe, Bool.or_eq_true, beq_iff_eq] at h₁ h₂ ⊢
  rcases h₁ with h₁ | rfl
  · rcases h₂ with h₂ | rfl
    · exact Or.inl (lexLt_trans h₁ h₂)
    · exact Or.inl h₁
  · exact h₂

theorem trimStr_eq_rdropWhile (s : Str) :
    trimStr s = List.rdropWhile isSpaceCode (s.dropWhile isSpaceCode) := rfl

theorem trimStr_idem (s : Str) : trimStr (trimStr s) = trimStr s := by
  have hnolead : (trimStr s).dropWhile isSpaceCode = trimStr s := by
    rcases hts : trimStr s with - | ⟨c, cs⟩
    · rfl
    obtain ⟨t, ht⟩ := List.rdropWhile_prefix isSpaceCode (s.dropWhile isSpaceCode)
    rw [trimStr_eq_rdropWhile] at hts
    rw [hts] at ht
    have hinner : (s.dropWhile isSpaceCode).dropWhile isSpaceCode
        = s.dropWhile isSpaceCode := List.dropWhile_idempotent _ _
    rw [← ht, List.cons_append] at hinner
    have hc : isSpaceCode c = false := by
      by_contra hcontra
      rw [Bool.not_eq_false] at hcontra
      rw [List.dropWhile_cons_of_pos hcontra] at hinner
      have hsub : List.Sublist ((cs ++ t).dropWhile isSpaceCode) (cs ++ t) :=
        List.dropWhile_sublist _
      have h1 := hsub.length_le
      have h2 := congrArg List.length hinner
      simp only [List.length_cons, List.length_append] at h1 h2
      omega
    rw [List.dropWhile_cons_of_neg (by simp [hc])]
  calc trimStr (trimStr s)
      = List.rdropWhile isSpaceCode ((trimStr s).dropWhile isSpaceCode) :=
        trimStr_eq_rdropWhile _
    _ = List.rdropWhile isSpaceCode (trimStr s) := by rw [hnolead]
    _ = trimStr s := by
        rw [trimStr_eq_rdropWhile]
        exact List.rdropWhile_idempotent _ _

theorem upperCode_idem (c : Nat) : upperCode (upperCode c) = upperCode c := by
  unfold upperCode
  split <;> rename_i h
  · have h2 : ¬ (97 ≤ c - 32 ∧ c - 32 ≤ 122) := by omega
    rw [if_neg h2]
  · rfl

theorem upperStr_idem (s : Str) : upperStr (upperStr s) = upperStr s := by
  unfold upperStr
  rw [List.map_map]
  exact List.map_congr_left (fun c _ => upperCode_idem c)

theorem sinsert_of_le {le : α → α → Bool} {a b : α} {bs : List α}
    (h : le a b = true) : sinsert le a (b :: bs) = a :: b :: bs := by
  unfold sinsert
  rw [if_pos h]

theorem sinsert_perm (le : α → α → Bool) (a : α) :
    ∀ l : List α, (sinsert le a l).Perm (a :: l)
  | [] => List.Perm.refl _
  | b :: bs => by
    unfold sinsert
    split
    · exact List.Perm.refl _
    · exact ((sinsert_perm le a bs).cons b).trans (List.Perm.swap a b bs)

theorem mem_sinsert {le : α → α → Bool} {a x : α} {l : List α} :
    x ∈ sinsert le a l ↔ x = a ∨ x ∈ l := by
  rw [(sinsert_perm le a l).mem_iff]
  simp

theorem isort_perm (le : α → α → Bool) : ∀ l : List α, (isort le l).Perm l
  | [] => List.Perm.refl _
  | a :: as => (sinsert_perm le a (isort le as)).trans ((isort_perm le as).cons a)

theorem pairwise_sinsert {le : α → α → Bool}
    (htot : ∀ x y, le x y = true ∨ le y x = true)
    (htr : ∀ {x y z}, le x y = true → le y z = true → le x z = true)
    {a : α} : ∀ {l : List α}, l.Pairwise (fun x y => le x y = true) →
      (sinsert le a l).Pairwise (fun x y => le x y = true)
  | [], _ => by simp [sinsert]
  | b :: bs, h => by
    unfold sinsert
    rcases hab : le a b with - | -
    · simp only [Bool.false_eq_true, if_false]
      rw [List.pairwise_cons] at h ⊢
      refine ⟨fun x hx => ?_, pairwise_sinsert htot htr h.2⟩
      rcases mem_sinsert.mp hx with rfl | hx
      · rcases htot b x with hbx | hxb
        · exact hbx
        · rw [hxb] at hab; exact Bool.noConfusion hab
      · exact h.1 x hx
    · simp only [if_true]
      rw [List.pairwise_cons] at h
      rw [List.pairwise_cons]
      refine ⟨fun x hx => ?_, List.pairwise_cons.mpr h⟩
      rcases List.mem_cons.mp hx with rfl | hx
      · exact hab
      · exact htr hab (h.1 x hx)

theorem pairwise_isort {le : α → α → Bool}
    (htot : ∀ x y, le x y = true ∨ le y x = true)
    (htr : ∀ {x y z}, le x y = true → le y z = true → le x z = true) :
    ∀ l : List α, (isort le l).Pairwise (fun x y => le x y = true)
  | [] => List.Pairwise.nil
  | a :: as => pairwise_sinsert htot htr (pairwise_isort htot htr as)

theorem isort_eq_of_sorted {le : α → α → Bool} :
    ∀ {l : List α}, l.Chain' (fun x y => le x y = true) → isort le l = l
  | [], _ => rfl
  | [a], _ => rfl
  | a :: b :: bs, h => by
    have htail : (b :: bs).Chain' (fun x y => le x y = true) := h.tail
    have hab : le a b = true := List.chain'_cons.mp h |>.1
    unfold isort
    rw [show isort le (b :: bs) = b :: bs from isort_eq_of_sorted htail]
    exact sinsert_of_le hab

theorem pairLe_total (a b : Str × Str) : pairLe a b = true ∨ pairLe b a = true := by
  unfold pairLe
  rcases lexLt_total a.1 b.1 with h | h | h
  · left; simp [h]
  · right; simp [h]
  · rcases lexLe_total a.2 b.2 with h2 | h2
    · left; simp [h, h2]
    · right; simp [h, h2]

theorem pairLe_trans {a b c : Str × Str} (h₁ : pairLe a b = true)
    (h₂ : pairLe b c = true) : pairLe a c = true := by
  unfold pairLe at h₁ h₂ ⊢
  simp only [Bool.or_eq_true, Bool.and_eq_true, beq_iff_eq] at h₁ h₂ ⊢
  rcases h₁ with h₁ | ⟨hfst, h₁⟩
  · rcases h₂ with h₂ | ⟨hfst, h₂⟩
    · exact Or.inl (lexLt_trans h₁ h₂)
    · exact Or.inl (hfst ▸ h₁)
  · rcases h₂ with h₂ | ⟨hfst2, h₂⟩
    · exact Or.inl (hfst ▸ h₂)
    · exact Or.inr ⟨hfst.trans hfst2, lexLe_trans h₁ h₂⟩

theorem lexLt_imp_lexLe {a b : Str} (h : lexLt a b = true) : lexLe a b = true := by
  simp [lexLe, h]

theorem pairLe_of_eq_fst {p a b : Str} (h : pairLe (p, a) (p, b) = true) :
    lexLe a b = true := by
  unfold pairLe at h
  simp only [lexLt_irrefl, Bool.false_or, Bool.and_eq_true, beq_iff_eq] at h
  exact h.2

theorem pairwise_groupCounts (ps : List (Str × Str)) :
    (groupCounts ps).Pairwise crowLe := by
  unfold groupCounts
  rw [List.pairwise_map]
  have : (isort pairLe ps.dedup).Pairwise fun a b => pairLe a b = true :=
    pairwise_isort pairLe_total
    (fun h1 h2 => pairLe_trans h1 h2) ps.dedup
  exact this.imp fun {a b} h => h

theorem pairwise_rankOneRows (counts : List CRow) (h : counts.Pairwise crowLe) :
    (rankOneRows counts).Pairwise crowLe := h.filter _

theorem pairwise_notedWinners (counts : List CRow) (h : counts.Pairwise crowLe) :
    (notedWinners counts).Pairwise lrowLe := by
  unfold notedWinners
  rw [List.pairwise_map]
  exact (pairwise_rankOneRows counts h).imp fun {a b} hab => hab

theorem notedWinners_n {counts : List CRow} {e : LRow}
    (he : e ∈ notedWinners counts) : e.n = maxCount counts e.port := by
  unfold notedWinners at he
  obtain ⟨r, hr, rfl⟩ := List.mem_map.mp he
  unfold rankOneRows at hr
  have := List.of_mem_filter hr
  show r.n = maxCount counts r.port
  exact eq_of_beq this

theorem notedWinners_note {counts : List CRow} {e : LRow}
    (he : e ∈ notedWinners counts) : e.note = noteFor counts e.port := by
  unfold notedWinners at he
  obtain ⟨r, _, rfl⟩ := List.mem_map.mp he
  rfl

/-- The tied-zone list, read off the noted winners. -/
theorem tiedZones_eq_noted (counts : List CRow) (p : Str) :
    tiedZones counts p
      = (((notedWinners counts).filter fun e => e.port == p).map (·.mapped_zone)) := by
  unfold tiedZones notedWinners
  rw [List.filter_map, List.map_map]
  rfl

theorem isort_rowLe_noted (counts : List CRow) (h : counts.Pairwise crowLe) :
    isort rowLe (notedWinners counts) = notedWinners counts := by
  apply isort_eq_of_sorted
  apply List.Pairwise.chain'
  apply (pairwise_notedWinners counts h).imp_of_mem
  intro a b ha hb hab
  unfold lrowLe pairLe at hab
  unfold rowLe
  simp only [Bool.or_eq_true, Bool.and_eq_true, beq_iff_eq, decide_eq_true_eq] at hab ⊢
  rcases hab with hab | ⟨hab, _⟩
  · exact Or.inl hab
  · refine Or.inr ⟨hab, ?_⟩
    rw [notedWinners_n ha, notedWinners_n hb, hab]

theorem dropDupPortsAux_sublist (seen : List Str) :
    ∀ l : List LRow, List.Sublist (dropDupPortsAux seen l) l
  | [] => List.Sublist.refl _
  | r :: rest => by
    unfold dropDupPortsAux
    split
    · exact (dropDupPortsAux_sublist seen rest).cons r
    · exact (dropDupPortsAux_sublist (r.port :: seen) rest).cons₂ r

theorem dropDupPorts_sublist (l : List LRow) : List.Sublist (dropDupPorts l) l :=
  dropDupPortsAux_sublist [] l

theorem mem_of_mem_dropDupPorts {l : List LRow} {x : LRow}
    (h : x ∈ dropDupPorts l) : x ∈ l := (dropDupPorts_sublist l).mem h

theorem dropDupPortsAux_not_seen (seen : List Str) :
    ∀ l : List LRow, ∀ x ∈ dropDupPortsAux seen l, x.port ∉ seen
  | [], x, hx => by simp [dropDupPortsAux] at hx
  | r :: rest, x, hx => by
    unfold dropDupPortsAux at hx
    split at hx
    · exact dropDupPortsAux_not_seen seen rest x hx
    · rcases List.mem_cons.mp hx with rfl | hx
      · assumption
      · have := dropDupPortsAux_not_seen (r.port :: seen) rest x hx
        exact fun hmem => this (List.mem_cons_of_mem _ hmem)

theorem pairwise_ne_dropDupPortsAux (seen : List Str) :
    ∀ l : List LRow, (dropDupPortsAux seen l).Pairwise fun a b => a.port ≠ b.port
  | [] => List.Pairwise.nil
  | r :: rest => by
    unfold dropDupPortsAux
    split
    · exact pairwise_ne_dropDupPortsAux seen rest
    · rw [List.pairwise_cons]
      refine ⟨fun x hx => ?_, pairwise_ne_dropDupPortsAux (r.port :: seen) rest⟩
      have := dropDupPortsAux_not_seen (r.port :: seen) rest x hx
      intro he
      exact this (he ▸ List.mem_cons_self _ _)

theorem pairwise_ne_dropDupPorts (l : List LRow) :
    (dropDupPorts l).Pairwise fun a b => a.port ≠ b.port :=
  pairwise_ne_dropDupPortsAux [] l

theorem dropDupPortsAux_first (p : Str) :
    ∀ (seen : List Str) (l : List LRow), p ∉ seen → l.Pairwise lrowLe →
      (∃ r ∈ l, r.port = p) →
      ∃ r0, r0 ∈ dropDupPortsAux seen l ∧ r0.port = p ∧
        ∀ r ∈ l, r.port = p → lexLe r0.mapped_zone r.mapped_zone = true
  | _, [], _, _, hex => by simp at hex
  | seen, r :: rest, hps, hp, hex => by
    unfold dropDupPortsAux
    by_cases hr : r.port = p
    · rw [if_neg (fun hmem => hps (hr ▸ hmem))]
      refine ⟨r, List.mem_cons_self _ _, hr, fun x hx hxp => ?_⟩
      rcases List.mem_cons.mp hx with rfl | hx
      · exact lexLe_refl _
      · have := (List.pairwise_cons.mp hp).1 x hx
        unfold lrowLe at this
        rw [hr, hxp] at this
        exact pairLe_of_eq_fst this
    · have hex' : ∃ x ∈ rest, x.port = p := by
        obtain ⟨x, hx, hxp⟩ := hex
        rcases List.mem_cons.mp hx with rfl | hx
        · exact absurd hxp hr
        · exact ⟨x, hx, hxp⟩
      split
      · obtain ⟨r0, hr0mem, hr0p, hr0min⟩ :=
          dropDupPortsAux_first p seen rest hps hp.tail hex'
        refine ⟨r0, hr0mem, hr0p, fun y hy hyp => ?_⟩
        rcases List.mem_cons.mp hy with rfl | hy
        · exact absurd hyp hr
        · exact hr0min y hy hyp
      · have hps' : p ∉ r.port :: seen := by
          intro hmem
          rcases List.mem_cons.mp hmem with he | hmem
          · exact hr he.symm
          · exact hps hmem
        obtain ⟨r0, hr0mem, hr0p, hr0min⟩ :=
          dropDupPortsAux_first p (r.port :: seen) rest hps' hp.tail hex'
        refine ⟨r0, List.mem_cons_of_mem _ hr0mem, hr0p, fun y hy hyp => ?_⟩
        rcases List.mem_cons.mp hy with rfl | hy
        · exact absurd hyp hr
        · exact hr0min y hy hyp

theorem dropDupPorts_first {l : List LRow} (hp : l.Pairwise lrowLe) (p : Str)
    (hex : ∃ r ∈ l, r.port = p) :
    ∃ r0, r0 ∈ dropDupPorts l ∧ r0.port = p ∧
      ∀ r ∈ l, r.port = p → lexLe r0.mapped_zone r.mapped_zone = true :=
  dropDupPortsAux_first p [] l (List.not_mem_nil p) hp hex

theorem build_eq_dropDup (df : List BRow) :
    build_port_zone_lookup df
      = dropDupPorts (notedWinners (groupCounts (seedPairs df))) := by
  unfold build_port_zone_lookup
  rw [isort_rowLe_noted _ (pairwise_groupCounts _)]
  apply isort_eq_of_sorted
  apply List.Pairwise.chain'
  have hpw : (dropDupPorts (notedWinners (groupCounts (seedPairs df)))).Pairwise lrowLe :=
    (pairwise_notedWinners _ (pairwise_groupCounts _)).sublist (dropDupPorts_sublist _)
  apply hpw.imp
  intro a b hab
  unfold lrowLe pairLe at hab
  unfold portLe
  simp only [Bool.or_eq_true, Bool.and_eq_true, beq_iff_eq] at hab
  rcases hab with hab | ⟨hab, _⟩
  · exact lexLt_imp_lexLe hab
  · rw [hab]; exact lexLe_refl _

theorem exists_noted_of_tied {df : List BRow} {p : Str}
    (htie : 2 ≤ (tiedZones (groupCounts (seedPairs df)) p).dedup.length) :
    ∃ r ∈ notedWinners (groupCounts (seedPairs df)), r.port = p := by
  set counts := groupCounts (seedPairs df) with hc
  have hne : tiedZones counts p ≠ [] := by
    intro h
    rw [h] at htie
    simp at htie
  obtain ⟨z0, hz0⟩ := List.exists_mem_of_ne_nil _ hne
  rw [tiedZones_eq_noted] at hz0
  obtain ⟨e0, he0, -⟩ := List.mem_map.mp hz0
  have hmem := List.mem_of_mem_filter he0
  have hp := List.of_mem_filter he0
  exact ⟨e0, hmem, eq_of_beq hp⟩

/-- C1. For every port whose maximum `(port, zone)` occurrence count is
shared by two or more zones, the lookup built by `build_port_zone_lookup`
has an entry for that port, and that entry carries the `"AMBIGUOUS"` note
and maps the port to the lexicographically (alphabetically) earliest zone
among the tied set. -/
theorem build_lookup_tie_ambiguous_alphabetical (df : List BRow) (p : Str)
    (htie : 2 ≤ (tiedZones (groupCounts (seedPairs df)) p).dedup.length) :
    (∃ e ∈ build_port_zone_lookup df, e.port = p) ∧
    ∀ e ∈ build_port_zone_lookup df, e.port = p →
      e.note = ambiguousNote ∧
      e.mapped_zone ∈ tiedZones (groupCounts (seedPairs df)) p ∧
      ∀ z ∈ tiedZones (groupCounts (seedPairs df)) p,
        lexLe e.mapped_zone z = true := by
  have hpw : (notedWinners (groupCounts (seedPairs df))).Pairwise lrowLe :=
    pairwise_notedWinners _ (pairwise_groupCounts _)
  obtain ⟨r0, hr0mem, hr0p, hr0min⟩ :=
    dropDupPorts_first hpw p (exists_noted_of_tied htie)
  have hbuild := build_eq_dropDup df
  constructor
  · exact ⟨r0, hbuild ▸ hr0mem, hr0p⟩
  · intro e he hep
    rw [hbuild] at he
    have heq : e = r0 := by
      by_contra hne
      have hsymm : Symmetric fun a b : LRow => a.port ≠ b.port :=
        fun _ _ h => Ne.symm h
      have hforall := (pairwise_ne_dropDupPorts
        (notedWinners (groupCounts (seedPairs df)))).forall hsymm
      exact hforall he hr0mem hne (hep.trans hr0p.symm)
    subst heq
    have hnoted : e ∈ notedWinners (groupCounts (seedPairs df)) :=
      mem_of_mem_dropDupPorts he
    refine ⟨?_, ?_, ?_⟩
    · rw [notedWinners_note hnoted, hep]
      unfold noteFor
      rw [if_pos (by omega)]
    · rw [tiedZones_eq_noted]
      apply List.mem_map.mpr
      refine ⟨e, List.mem_filter.mpr ⟨hnoted, ?_⟩, rfl⟩
      exact beq_iff_eq.mpr hep
    · intro z hz
      rw [tiedZones_eq_noted] at hz
      obtain ⟨y, hy, rfl⟩ := List.mem_map.mp hz
      have hymem := List.mem_of_mem_filter hy
      have hyb := List.of_mem_filter hy
      exact hr0min y hymem (eq_of_beq hyb)

/-- Witness for C1: a port with 3 records zone `A` and 3 records zone `B`
is tied, its entry is flagged `AMBIGUOUS`, and its mapped zone is `A`. -/
theorem build_lookup_tie_ambiguous_alphabetical_witness :
    (2 ≤ (tiedZones (groupCounts (seedPairs tieDf)) (strCodes "P")).dedup.length) ∧
    ((∃ e ∈ build_port_zone_lookup tieDf, e.port = strCodes "P") ∧
      ∀ e ∈ build_port_zone_lookup tieDf, e.port = strCodes "P" →
        e.note = ambiguousNote ∧
        e.mapped_zone ∈ tiedZones (groupCounts (seedPairs tieDf)) (strCodes "P") ∧
        ∀ z ∈ tiedZones (groupCounts (seedPairs tieDf)) (strCodes "P"),
          lexLe e.mapped_zone z = true) ∧
    build_port_zone_lookup tieDf
      = [⟨strCodes "P", strCodes "A", 3, ambiguousNote⟩] :=
  ⟨by decide,
   build_lookup_tie_ambiguous_alphabetical tieDf (strCodes "P") (by decide),
   by decide⟩

/-- C2. Applying the lookup with an override table: a record missing its
zone but having a port receives the override-first mapping; an override
entry always wins over the automatic lookup; and a port found in neither
table leaves the record zone-missing (the function is total — no error). -/
theorem apply_lookup_backfill_override (df : List ARow) (lk ovT : List (Str × Str))
    (r : ARow) (p : Str) (hr : r ∈ df) (hp : r.port = some p)
    (hz : r.lob_zone = none) :
    applyRow lk (some ovT) r ∈ apply_port_zone_lookup df lk (some ovT) ∧
    (applyRow lk (some ovT) r).lob_zone = mappedZone lk (some ovT) (trimStr p) ∧
    (∀ z, lookupZone ovT (trimStr p) = none → lookupZone lk (trimStr p) = some z →
      (applyRow lk (some ovT) r).lob_zone = some z) ∧
    (∀ c, lookupZone ovT (trimStr p) = some c →
      (applyRow lk (some ovT) r).lob_zone = some c) ∧
    (lookupZone ovT (trimStr p) = none → lookupZone lk (trimStr p) = none →
      (applyRow lk (some ovT) r).lob_zone = none) := by
  refine ⟨List.mem_map_of_mem _ hr, ?_, ?_, ?_, ?_⟩
  · simp [applyRow, hp, hz]
  · intro z ho hl
    simp [applyRow, hp, hz, mappedZone, ho, hl]
  · intro c ho
    simp [applyRow, hp, hz, mappedZone, ho]
  · intro ho hl
    simp [applyRow, hp, hz, mappedZone, ho, hl]

/-- Witness for C2: a port automatically mapped to `B` but overridden to
`C` resolves to `C`; the record row is backfilled accordingly. -/
theorem apply_lookup_backfill_override_witness :
    ((⟨some (strCodes "P"), none⟩ : ARow) ∈ [(⟨some (strCodes "P"), none⟩ : ARow)]) ∧
    ((⟨some (strCodes "P"), none⟩ : ARow).port = some (strCodes "P")) ∧
    ((applyRow [(strCodes "P", strCodes "B")] (some [(strCodes "P", strCodes "C")])
        ⟨some (strCodes "P"), none⟩).lob_zone = some (strCodes "C")) ∧
    (apply_port_zone_lookup [⟨some (strCodes "P"), none⟩]
        [(strCodes "P", strCodes "B")] (some [(strCodes "P", strCodes "C")])
      |>.map (·.lob_zone)) = [some (strCodes "C")] := by
  refine ⟨by decide, by decide, ?_, by decide⟩
  exact (apply_lookup_backfill_override
    [⟨some (strCodes "P"), none⟩] [(strCodes "P", strCodes "B")]
    [(strCodes "P", strCodes "C")] ⟨some (strCodes "P"), none⟩ (strCodes "P")
    (by decide) (by decide) (by decide)).2.2.2.1 (strCodes "C") (by decide)

/-- C3. YoY categorization: a zero-or-absent prior total yields
`no_baseline` (the percentage is never formed, so there is no division by
zero); otherwise `pct = (current − prior) / prior × 100` decides the
category — `no_change` inside the band, else `increase` iff `pct > 0`. -/
theorem yoy_categorization (cur prev : Option ℚ) (band : ℚ) :
    (prev.getD 0 = 0 → zoneCategory cur prev band = YoyCat.no_baseline) ∧
    (∀ p, prev = some p → p ≠ 0 →
      yoyPct (cur.getD 0) p = some ((cur.getD 0 - p) / p * 100) ∧
      zoneCategory cur prev band =
        (if |(cur.getD 0 - p) / p * 100| < band then YoyCat.no_change
         else if (cur.getD 0 - p) / p * 100 > 0 then YoyCat.increase
         else YoyCat.decrease)) := by
  constructor
  · intro h0
    unfold zoneCategory yoyPct
    rw [h0, if_pos rfl]
    rfl
  · intro p hp hp0
    subst hp
    constructor
    · unfold yoyPct
      rw [if_neg hp0]
    · unfold zoneCategory yoyPct yoyCatOf
      simp only [Option.getD_some]
      rw [if_neg hp0]

/-- Witness for C3: current=120/prior=100 → `increase`; current=100.2
(=501/5)/prior=100 → `no_change` with the default 0.5 band; current=50/
prior=0 → `no_baseline`. -/
theorem yoy_categorization_witness :
    zoneCategory (some 120) (some 100) = YoyCat.increase ∧
    zoneCategory (some (501/5)) (some 100) = YoyCat.no_change ∧
    zoneCategory (some 50) (some 0) = YoyCat.no_baseline := by
  refine ⟨?_, ?_, ?_⟩
  · have h := (yoy_categorization (some 120) (some 100) (1/2)).2 100 rfl (by norm_num)
    rw [h.2]
    rw [if_neg (by simp only [Option.getD_some]; rw [abs_of_nonneg (by norm_num)]; norm_num)]
    rw [if_pos (by simp only [Option.getD_some]; norm_num)]
  · have h := (yoy_categorization (some (501/5)) (some 100) (1/2)).2 100 rfl (by norm_num)
    rw [h.2]
    rw [if_pos (by simp only [Option.getD_some]; rw [abs_of_nonneg (by norm_num)]; norm_num)]
  · exact (yoy_categorization (some 50) (some 0) (1/2)).1 (by norm_num)

theorem getCol_setCol_self : ∀ (f : IoFrame) (n : Str) (col : List Cell),
    getCol (setCol f n col) n = some col
  | [], n, col => by simp [setCol, getCol]
  | p :: ps, n, col => by
    unfold setCol
    split <;> rename_i h
    · simp [getCol]
    · unfold getCol
      rw [List.find?_cons_of_neg _ (by simpa using h)]
      exact getCol_setCol_self ps n col

theorem getCol_setCol_ne {m n : Str} (hmn : m ≠ n) :
    ∀ (f : IoFrame) (col : List Cell), getCol (setCol f m col) n = getCol f n
  | [], col => by
    simp only [setCol, getCol, List.find?, List.find?_nil]
    rw [show (m == n) = false from beq_eq_false_iff_ne.mpr hmn]
  | p :: ps, col => by
    unfold setCol
    split <;> rename_i h
    · have hp : p.1 = m := by simpa using h
      unfold getCol
      rw [List.find?_cons_of_neg _ (by simpa using hmn),
        List.find?_cons_of_neg _ (by simp [hp, hmn])]
    · by_cases hn : p.1 = n
      · unfold getCol
        rw [List.find?_cons_of_pos _ (by simpa using hn),
          List.find?_cons_of_pos _ (by simpa using hn)]
      · unfold getCol
        rw [List.find?_cons_of_neg _ (by simpa using hn),
          List.find?_cons_of_neg _ (by simpa using hn)]
        exact getCol_setCol_ne hmn ps col

theorem hasCol_iff_getCol (f : IoFrame) (n : Str) :
    hasCol f n = true ↔ (getCol f n).isSome = true := by
  induction f with
  | nil => simp [hasCol, getCol]
  | cons p ps ih =>
    by_cases hn : p.1 = n
    · simp only [hasCol, List.map_cons, List.contains_cons, getCol]
      rw [List.find?_cons_of_pos _ (by simpa using hn)]
      simp [hn]
    · simp only [hasCol, List.map_cons, List.contains_cons, getCol]
      rw [List.find?_cons_of_neg _ (by simpa using hn)]
      simp only [Bool.or_eq_true, beq_iff_eq]
      constructor
      · rintro (h | h)
        · exact absurd h.symm hn
        · exact (ih.mp (by simpa [hasCol] using h))
      · intro h
        exact Or.inr (by simpa [hasCol] using ih.mpr h)

theorem hasCol_setCol_self (f : IoFrame) (n : Str) (col : List Cell) :
    hasCol (setCol f n col) n = true := by
  rw [hasCol_iff_getCol, getCol_setCol_self]
  rfl

theorem hasCol_setCol_ne {m n : Str} (hmn : m ≠ n) (f : IoFrame)
    (col : List Cell) : hasCol (setCol f m col) n = hasCol f n := by
  rcases h : hasCol f n with - | -
  · rw [← Bool.not_eq_true] at h ⊢
    rw [hasCol_iff_getCol] at h ⊢
    rw [getCol_setCol_ne hmn]
    exact h
  · rw [hasCol_iff_getCol] at h ⊢
    rw [getCol_setCol_ne hmn]
    exact h

theorem getCol_renameCol_ne {old new n : Str} (hold : old ≠ n) (hnew : new ≠ n) :
    ∀ f : IoFrame, getCol (renameCol f old new) n = getCol f n
  | [] => rfl
  | p :: ps => by
    unfold renameCol getCol
    simp only [List.map_cons]
    split <;> rename_i h
    · have hp : p.1 = old := by simpa using h
      rw [List.find?_cons_of_neg _ (by simpa using hnew),
        List.find?_cons_of_neg _ (by simp [hp, hold])]
      exact getCol_renameCol_ne hold hnew ps
    · by_cases hn : p.1 = n
      · rw [List.find?_cons_of_pos _ (by simpa using hn),
          List.find?_cons_of_pos _ (by simpa using hn)]
      · rw [List.find?_cons_of_neg _ (by simpa using hn),
          List.find?_cons_of_neg _ (by simpa using hn)]
        exact getCol_renameCol_ne hold hnew ps

theorem hasCol_renameCol_ne {old new n : Str} (hold : old ≠ n) (hnew : new ≠ n)
    (f : IoFrame) : hasCol (renameCol f old new) n = hasCol f n := by
  rcases h : hasCol f n with - | -
  · rw [← Bool.not_eq_true] at h ⊢
    rw [hasCol_iff_getCol] at h ⊢
    rw [getCol_renameCol_ne hold hnew]
    exact h
  · rw [hasCol_iff_getCol] at h ⊢
    rw [getCol_renameCol_ne hold hnew]
    exact h

theorem pick_col_lower_mem {cols cands : List Str} {c : Str}
    (h : pick_col cols cands = some c) : lowerStr c ∈ cands.map lowerStr := by
  unfold pick_col at h
  rcases hfind : cands.find? (fun x => cols.contains x) with - | c'
  · rw [hfind] at h
    simp only at h
    obtain ⟨cand, hcand, hlk⟩ := List.exists_of_findSome?_eq_some h
    unfold lowerLookup at hlk
    have := List.find?_some hlk
    have heq : lowerStr c = lowerStr cand := by simpa using this
    rw [heq]
    exact List.mem_map_of_mem _ hcand
  · rw [hfind] at h
    simp only [Option.some.injEq] at h
    subst h
    exact List.mem_map_of_mem _ (List.mem_of_find?_eq_some hfind)

theorem getCol_resolveRename_ne {cands : List Str} {canon n : Str}
    (hlow : lowerStr n ∉ cands.map lowerStr) (hcanon : canon ≠ n)
    (f : IoFrame) : getCol (resolveRename f cands canon) n = getCol f n := by
  unfold resolveRename
  rcases hp : pick_col (f.map Prod.fst) cands with - | c
  · rfl
  · have hcn : c ≠ n := by
      intro h
      exact hlow (h ▸ pick_col_lower_mem hp)
    show getCol (if (c == canon) = true then f else renameCol f c canon) n
      = getCol f n
    split
    · rfl
    · exact getCol_renameCol_ne hcn hcanon f

theorem hasCol_resolveRename_ne {cands : List Str} {canon n : Str}
    (hlow : lowerStr n ∉ cands.map lowerStr) (hcanon : canon ≠ n)
    (f : IoFrame) : hasCol (resolveRename f cands canon) n = hasCol f n := by
  rcases h : hasCol f n with - | -
  · rw [← Bool.not_eq_true] at h ⊢
    rw [hasCol_iff_getCol] at h ⊢
    rw [getCol_resolveRename_ne hlow hcanon]
    exact h
  · rw [hasCol_iff_getCol] at h ⊢
    rw [getCol_resolveRename_ne hlow hcanon]
    exact h

theorem getCol_stripColIfPresent_ne {m n : Str} (hmn : m ≠ n) (f : IoFrame) :
    getCol (stripColIfPresent f m) n = getCol f n := by
  unfold stripColIfPresent
  split
  · exact getCol_setCol_ne hmn f _
  · rfl

theorem hasCol_stripColIfPresent_ne {m n : Str} (hmn : m ≠ n) (f : IoFrame) :
    hasCol (stripColIfPresent f m) n = hasCol f n := by
  rcases h : hasCol f n with - | -
  · rw [← Bool.not_eq_true] at h ⊢
    rw [hasCol_iff_getCol] at h ⊢
    rw [getCol_stripColIfPresent_ne hmn]
    exact h
  · rw [hasCol_iff_getCol] at h ⊢
    rw [getCol_stripColIfPresent_ne hmn]
    exact h

theorem getCol_standardize_date (f : IoFrame) :
    getCol (standardize f) (strCodes "date") = getCol (stdDates f) (strCodes "date") := by
  unfold standardize
  rw [getCol_stripColIfPresent_ne (by decide), getCol_stripColIfPresent_ne (by decide),
    getCol_resolveRename_ne (by decide) (by decide),
    getCol_resolveRename_ne (by decide) (by decide),
    getCol_stripColIfPresent_ne (by decide),
    getCol_resolveRename_ne (by decide) (by decide),
    getCol_stripColIfPresent_ne (by decide),
    getCol_resolveRename_ne (by decide) (by decide),
    getCol_resolveRename_ne (by decide) (by decide),
    getCol_resolveRename_ne (by decide) (by decide)]

theorem getCol_standardize_year (f : IoFrame) :
    getCol (standardize f) (strCodes "year") = getCol (stdDates f) (strCodes "year") := by
  unfold standardize
  rw [getCol_stripColIfPresent_ne (by decide), getCol_stripColIfPresent_ne (by decide),
    getCol_resolveRename_ne (by decide) (by decide),
    getCol_resolveRename_ne (by decide) (by decide),
    getCol_stripColIfPresent_ne (by decide),
    getCol_resolveRename_ne (by decide) (by decide),
    getCol_stripColIfPresent_ne (by decide),
    getCol_resolveRename_ne (by decide) (by decide),
    getCol_resolveRename_ne (by decide) (by decide),
    getCol_resolveRename_ne (by decide) (by decide)]

theorem hasCol_standardize_year (f : IoFrame) :
    hasCol (standardize f) (strCodes "year") = hasCol (stdDates f) (strCodes "year") := by
  unfold standardize
  rw [hasCol_stripColIfPresent_ne (by decide), hasCol_stripColIfPresent_ne (by decide),
    hasCol_resolveRename_ne (by decide) (by decide),
    hasCol_resolveRename_ne (by decide) (by decide),
    hasCol_stripColIfPresent_ne (by decide),
    hasCol_resolveRename_ne (by decide) (by decide),
    hasCol_stripColIfPresent_ne (by decide),
    hasCol_resolveRename_ne (by decide) (by decide),
    hasCol_resolveRename_ne (by decide) (by decide),
    hasCol_resolveRename_ne (by decide) (by decide)]

theorem getCol_yearGuard_date (g : IoFrame) :
    getCol (yearGuard g) (strCodes "date") = getCol g (strCodes "date") := by
  unfold yearGuard
  split_ifs
  · rfl
  · exact getCol_setCol_ne (by decide) g _
  · rfl

theorem hasCol_yearGuard_year_of_date {g : IoFrame}
    (h : hasCol g (strCodes "date") = true) :
    hasCol (yearGuard g) (strCodes "year") = true := by
  unfold yearGuard
  by_cases h1 : hasCol g (strCodes "year") = true
  · rw [if_pos h1]
    exact h1
  · rw [if_neg h1, if_pos h]
    exact hasCol_setCol_self g _ _

theorem yearGuard_of_year {g : IoFrame} (h : hasCol g (strCodes "year") = true) :
    yearGuard g = g := by
  unfold yearGuard
  rw [if_pos h]

theorem getCol_yearGuard_year_of_absent {g : IoFrame} {dcol : List Cell}
    (hy : hasCol g (strCodes "year") = false)
    (hd : getCol g (strCodes "date") = some dcol) :
    getCol (yearGuard g) (strCodes "year") = some (dcol.map dtYear) := by
  unfold yearGuard
  rw [if_neg (by simp [hy])]
  rw [if_pos ((hasCol_iff_getCol g _).mpr (by simp [hd]))]
  rw [getCol_setCol_self, hd]
  rfl

theorem pick_year_of_hasCol {f : IoFrame}
    (h : hasCol f (strCodes "year") = true) :
    pick_col (f.map Prod.fst) yearCands = some (strCodes "year") := by
  unfold pick_col
  rw [show yearCands.find? (fun c => (f.map Prod.fst).contains c)
      = some (strCodes "year") from ?_]
  unfold yearCands
  rw [List.find?_cons_of_pos _ (by exact h)]

theorem find?_first {α : Type} {p : α → Bool} :
    ∀ (l : List α) (i : Nat) (hi : i < l.length),
      p (l.get ⟨i, hi⟩) = true →
      (∀ j, (hj : j < i) → p (l.get ⟨j, by omega⟩) = false) →
      l.find? p = some (l.get ⟨i, hi⟩)
  | [], i, hi, _, _ => by simp at hi
  | a :: as, 0, hi, hp, _ => by
    have hpa : p a = true := by simpa using hp
    simp [List.find?_cons_of_pos _ hpa]
  | a :: as, i + 1, hi, hp, hearlier => by
    have ha : p a = false := hearlier 0 (Nat.succ_pos i)
    rw [List.find?_cons_of_neg _ (by simp [ha])]
    exact find?_first as i (by simpa using hi) hp
      (fun j hj => hearlier (j + 1) (by omega))

theorem mem_uniqFirstAux {x : ℚ} :
    ∀ (seen : List ℚ) (l : List ℚ), x ∈ l → x ∉ seen → x ∈ uniqFirstAux seen l
  | _, [], hx, _ => by simp at hx
  | seen, a :: as, hx, hs => by
    unfold uniqFirstAux
    rcases List.mem_cons.mp hx with rfl | hx
    · rw [if_neg hs]
      exact List.mem_cons_self _ _
    · split
      · exact mem_uniqFirstAux seen as hx hs
      · by_cases hxa : x = a
        · exact hxa ▸ List.mem_cons_self _ _
        · refine List.mem_cons_of_mem _ (mem_uniqFirstAux (a :: seen) as hx ?_)
          intro hmem
          rcases List.mem_cons.mp hmem with h | h
          · exact hxa h
          · exact hs h

theorem mem_uniqueKeepFirst {x : ℚ} {l : List ℚ} (hx : x ∈ l) :
    x ∈ uniqueKeepFirst l :=
  mem_uniqFirstAux [] l hx (List.not_mem_nil x)

theorem allYears_iff (df : List VRow) :
    ((df.filterMap (·.year)).all yearOk = true)
      ↔ (∀ r ∈ df, ∀ y, r.year = some y → 1900 ≤ y ∧ y ≤ 2100) := by
  simp only [List.all_eq_true, List.mem_filterMap, yearOk, Bool.and_eq_true,
    decide_eq_true_eq]
  constructor
  · intro h r hr y hy
    exact h y ⟨r, hr, hy⟩
  · rintro h y ⟨r, hr, hy⟩
    exact h r hr y hy

theorem hasNeg_false_iff (df : List VRow) (get : VRow → Option ℚ) :
    (hasNeg df get = false) ↔ (∀ r ∈ df, ∀ q, get r = some q → 0 ≤ q) := by
  unfold hasNeg
  rw [← Bool.not_eq_true, List.any_eq_true]
  simp only [List.mem_filterMap, decide_eq_true_eq, not_exists, not_and]
  constructor
  · intro h r hr q hq
    have := h q
    rw [not_lt] at this
    exact this ⟨r, hr, hq⟩
  · rintro h q ⟨r, hr, hq⟩
    rw [not_lt]
    exact h r hr q hq

theorem hasNeg_true_of (df : List VRow) (get : VRow → Option ℚ) {r : VRow}
    {q : ℚ} (hr : r ∈ df) (hq : get r = some q) (hneg : q < 0) :
    hasNeg df get = true := by
  unfold hasNeg
  rw [List.any_eq_true]
  exact ⟨q, List.mem_filterMap.mpr ⟨r, hr, hq⟩, decide_eq_true hneg⟩

theorem pick_date_of_hasCol {f : IoFrame}
    (h : hasCol f (strCodes "date") = true) :
    pick_col (f.map Prod.fst) dateCands = some (strCodes "date") := by
  unfold pick_col
  rw [show dateCands.find? (fun c => (f.map Prod.fst).contains c)
      = some (strCodes "date") from ?_]
  unfold dateCands
  rw [List.find?_cons_of_pos _ (by exact h)]

theorem hasCol_date_false_of_pick_none {f : IoFrame}
    (h : pick_col (f.map Prod.fst) dateCands = none) :
    hasCol f (strCodes "date") = false := by
  rcases hc : hasCol f (strCodes "date") with - | -
  · rfl
  · rw [pick_date_of_hasCol hc] at h
    exact Option.noConfusion h

theorem hasCol_year_false_of_pick_none {f : IoFrame}
    (h : pick_col (f.map Prod.fst) yearCands = none) :
    hasCol f (strCodes "year") = false := by
  rcases hc : hasCol f (strCodes "year") with - | -
  · rfl
  · rw [pick_year_of_hasCol hc] at h
    exact Option.noConfusion h

/-- C7. The Schema Normalizer's date/year resolution: an explicit date
column is parsed in place; otherwise a date is synthesized from a
(year, month) pair with day 1, or from a packed year-month numeral (digits
only, first 4 the year, next 2 the month, day 1), or from a bare year as
January 1; afterwards a `year` column exists whenever any date-bearing
signal was found, derived from `date` when no exact `year` column exists. -/
theorem schema_normalizer_dates (f : IoFrame) :
    (∀ dc, pick_col (f.map Prod.fst) dateCands = some dc →
      getCol (standardize f) (strCodes "date")
        = some (((getCol (renameCol f dc (strCodes "date")) (strCodes "date")).getD
            []).map toDatetime)) ∧
    (∀ yc mc, pick_col (f.map Prod.fst) dateCands = none →
      pick_col (f.map Prod.fst) yearCands = some yc →
      pick_col (f.map Prod.fst) monthCands = some mc →
      getCol (standardize f) (strCodes "date")
        = some (List.zipWith synthDateYM ((getCol f yc).getD [])
            ((getCol f mc).getD []))) ∧
    (∀ ymc, pick_col (f.map Prod.fst) dateCands = none →
      (pick_col (f.map Prod.fst) yearCands = none ∨
        pick_col (f.map Prod.fst) monthCands = none) →
      pick_col (f.map Prod.fst) ymCands = some ymc →
      getCol (standardize f) (strCodes "date")
        = some (((getCol f ymc).getD []).map synthDateYYYYMM)) ∧
    (∀ yc, pick_col (f.map Prod.fst) dateCands = none →
      pick_col (f.map Prod.fst) monthCands = none →
      pick_col (f.map Prod.fst) ymCands = none →
      pick_col (f.map Prod.fst) yearCands = some yc →
      getCol (standardize f) (strCodes "date")
        = some ((((getCol f yc).getD []).map yearToInt).map dateFromYearCell) ∧
      getCol (standardize f) (strCodes "year")
        = some (((getCol f yc).getD []).map yearToInt)) ∧
    ((pick_col (f.map Prod.fst) dateCands).isSome = true ∨
     (pick_col (f.map Prod.fst) yearCands).isSome = true ∨
     (pick_col (f.map Prod.fst) ymCands).isSome = true →
      hasCol (standardize f) (strCodes "year") = true) ∧
    (pick_col (f.map Prod.fst) yearCands = none →
      ∀ dcol, getCol (standardize f) (strCodes "date") = some dcol →
        getCol (standardize f) (strCodes "year") = some (dcol.map dtYear)) := by
  refine ⟨?_, ?_, ?_, ?_, ?_, ?_⟩
  · intro dc hdc
    rw [getCol_standardize_date]
    unfold stdDates
    rw [getCol_yearGuard_date]
    unfold stdDatesCore
    simp only [hdc]
    rw [getCol_setCol_self]
  · intro yc mc hdc hyc hmc
    rw [getCol_standardize_date]
    unfold stdDates
    rw [getCol_yearGuard_date]
    unfold stdDatesCore
    simp only [hdc, hyc, hmc]
    rw [getCol_setCol_self]
  · intro ymc hdc hor hym
    rw [getCol_standardize_date]
    unfold stdDates
    rw [getCol_yearGuard_date]
    unfold stdDatesCore
    rcases hyc : pick_col (f.map Prod.fst) yearCands with - | y
    · rcases hmc : pick_col (f.map Prod.fst) monthCands with - | m
      · simp only [hdc, hyc, hmc, hym]
        rw [getCol_setCol_self]
      · simp only [hdc, hyc, hmc, hym]
        rw [getCol_setCol_self]
    · rcases hmc : pick_col (f.map Prod.fst) monthCands with - | m
      · simp only [hdc, hyc, hmc, hym]
        rw [getCol_setCol_self]
      · rcases hor with hor | hor
        · rw [hyc] at hor
          exact Option.noConfusion hor
        · rw [hmc] at hor
          exact Option.noConfusion hor
  · intro yc hdc hmc hym hyc
    have hcore : stdDatesCore f
        = setCol (setCol f (strCodes "year")
            (((getCol f yc).getD []).map yearToInt)) (strCodes "date")
          (((getCol (setCol f (strCodes "year")
              (((getCol f yc).getD []).map yearToInt)) (strCodes "year")).getD
            []).map dateFromYearCell) := by
      unfold stdDatesCore
      simp only [hdc, hyc, hmc, hym]
    have hcoreYear : getCol (stdDatesCore f) (strCodes "year")
        = some (((getCol f yc).getD []).map yearToInt) := by
      rw [hcore, getCol_setCol_ne (by decide), getCol_setCol_self]
    have hguard : yearGuard (stdDatesCore f) = stdDatesCore f :=
      yearGuard_of_year ((hasCol_iff_getCol _ _).mpr (by simp [hcoreYear]))
    constructor
    · rw [getCol_standardize_date]
      unfold stdDates
      rw [getCol_yearGuard_date, hcore, getCol_setCol_self, getCol_setCol_self,
        Option.getD_some]
    · rw [getCol_standardize_year]
      unfold stdDates
      rw [hguard, hcoreYear]
  · intro hsig
    rw [hasCol_standardize_year]
    unfold stdDates
    rcases hdc : pick_col (f.map Prod.fst) dateCands with - | dc
    · rcases hyc : pick_col (f.map Prod.fst) yearCands with - | y
      · rcases hym : pick_col (f.map Prod.fst) ymCands with - | u
        · rcases hsig with h | h | h
          · rw [hdc] at h
            exact Bool.noConfusion h
          · rw [hyc] at h
            exact Bool.noConfusion h
          · rw [hym] at h
            exact Bool.noConfusion h
        · apply hasCol_yearGuard_year_of_date
          rcases hmc : pick_col (f.map Prod.fst) monthCands with - | m
          · unfold stdDatesCore
            simp only [hdc, hyc, hmc, hym]
            exact hasCol_setCol_self _ _ _
          · unfold stdDatesCore
            simp only [hdc, hyc, hmc, hym]
            exact hasCol_setCol_self _ _ _
      · rcases hmc : pick_col (f.map Prod.fst) monthCands with - | m
        · rcases hym : pick_col (f.map Prod.fst) ymCands with - | u
          · have hcy : hasCol (stdDatesCore f) (strCodes "year") = true := by
              unfold stdDatesCore
              simp only [hdc, hyc, hmc, hym]
              rw [hasCol_setCol_ne (by decide)]
              exact hasCol_setCol_self _ _ _
            rw [yearGuard_of_year hcy]
            exact hcy
          · apply hasCol_yearGuard_year_of_date
            unfold stdDatesCore
            simp only [hdc, hyc, hmc, hym]
            exact hasCol_setCol_self _ _ _
        · apply hasCol_yearGuard_year_of_date
          unfold stdDatesCore
          simp only [hdc, hyc, hmc]
          exact hasCol_setCol_self _ _ _
    · apply hasCol_yearGuard_year_of_date
      unfold stdDatesCore
      simp only [hdc]
      exact hasCol_setCol_self _ _ _
  · intro hyc dcol hdcol
    rw [getCol_standardize_date] at hdcol
    rw [getCol_standardize_year]
    unfold stdDates at hdcol ⊢
    rw [getCol_yearGuard_date] at hdcol
    have hyearF : hasCol f (strCodes "year") = false :=
      hasCol_year_false_of_pick_none hyc
    rcases hdc : pick_col (f.map Prod.fst) dateCands with - | dc
    · rcases hym : pick_col (f.map Prod.fst) ymCands with - | u
      · have hcore : stdDatesCore f = f := by
          unfold stdDatesCore
          rcases hmc : pick_col (f.map Prod.fst) monthCands with - | m <;>
            simp only [hdc, hyc, hmc, hym]
        rw [hcore] at hdcol
        have hfalse : hasCol f (strCodes "date") = false :=
          hasCol_date_false_of_pick_none hdc
        have htrue : hasCol f (strCodes "date") = true :=
          (hasCol_iff_getCol f _).mpr (by simp [hdcol])
        rw [hfalse] at htrue
        exact Bool.noConfusion htrue
      · have hcore : stdDatesCore f
            = setCol f (strCodes "date")
              (((getCol f u).getD []).map synthDateYYYYMM) := by
          unfold stdDatesCore
          rcases hmc : pick_col (f.map Prod.fst) monthCands with - | m <;>
            simp only [hdc, hyc, hmc, hym]
        have hcy : hasCol (stdDatesCore f) (strCodes "year") = false := by
          rw [hcore, hasCol_setCol_ne (by decide)]
          exact hyearF
        exact getCol_yearGuard_year_of_absent hcy hdcol
    · have hcy : hasCol (stdDatesCore f) (strCodes "year") = false := by
        unfold stdDatesCore
        simp only [hdc]
        rw [hasCol_setCol_ne (by decide)]
        have hdcn : dc ≠ strCodes "year" := by
          intro h
          have := pick_col_lower_mem hdc
          rw [h] at this
          exact absurd this (by decide)
        rw [hasCol_renameCol_ne hdcn (by decide)]
        exact hyearF
      exact getCol_yearGuard_year_of_absent hcy hdcol

theorem toDatetime_idem (c : Cell) : toDatetime (toDatetime c) = toDatetime c := by
  cases c with
  | na => rfl
  | date dt => rfl
  | num q => rfl
  | str s =>
    simp only [toDatetime]
    rcases h : parseIsoDate (trimStr s) with - | dt <;> simp [h]

theorem toNumeric_shape (c : Cell) :
    (∃ q, toNumeric c = .num q) ∨ toNumeric c = .na := by
  cases c with
  | na => exact Or.inr rfl
  | date dt => exact Or.inr rfl
  | num q => exact Or.inl ⟨q, rfl⟩
  | str s =>
    simp only [toNumeric]
    split
    · exact Or.inl ⟨_, rfl⟩
    · exact Or.inr rfl

theorem yearCoerce_idem (c : Cell) : yearCoerce (yearCoerce c) = yearCoerce c := by
  rcases toNumeric_shape c with ⟨q, hq⟩ | hq
  · unfold yearCoerce
    rw [hq]
    show (match toNumeric (if q.den = 1 then Cell.num q else Cell.na) with
      | Cell.num q' => if q'.den = 1 then Cell.num q' else Cell.na
      | x => x) = (if q.den = 1 then Cell.num q else Cell.na)
    by_cases hden : q.den = 1
    · rw [if_pos hden]
      show (if q.den = 1 then Cell.num q else Cell.na) = Cell.num q
      rw [if_pos hden]
    · rw [if_neg hden]
      rfl
  · unfold yearCoerce
    rw [hq]
    rfl

theorem strColCell_idem (c : Cell) : strColCell (strColCell c) = strColCell c := by
  cases c with
  | na => rfl
  | str s =>
    show strColCell (.str (trimStr s)) = .str (trimStr s)
    show Cell.str (trimStr (trimStr s)) = .str (trimStr s)
    rw [trimStr_idem]
  | num q =>
    show strColCell (.str (trimStr (cellToStrPy (.num q)))) = _
    show Cell.str (trimStr (trimStr (cellToStrPy (.num q))))
      = .str (trimStr (cellToStrPy (.num q)))
    rw [trimStr_idem]
  | date dt =>
    show strColCell (.str (trimStr (cellToStrPy (.date dt)))) = _
    show Cell.str (trimStr (trimStr (cellToStrPy (.date dt))))
      = .str (trimStr (cellToStrPy (.date dt)))
    rw [trimStr_idem]

theorem znCell_shape (c : Cell) :
    znCell c = .na ∨ ∃ t, znCell c = .str t ∧ t ∈ zoneLetterCodes := by
  cases c with
  | na => exact Or.inl rfl
  | str s =>
    simp only [znCell]
    split
    · exact Or.inr ⟨_, rfl, by assumption⟩
    · exact Or.inl rfl
  | num q =>
    simp only [znCell]
    split
    · exact Or.inr ⟨_, rfl, by assumption⟩
    · exact Or.inl rfl
  | date dt =>
    simp only [znCell]
    split
    · exact Or.inr ⟨_, rfl, by assumption⟩
    · exact Or.inl rfl

theorem zoneCell_pass_idem (c : Cell) :
    znCell (strColCell (znCell (strColCell c))) = znCell (strColCell c) := by
  rcases znCell_shape (strColCell c) with h | ⟨t, h, hmem⟩
  · rw [h]
    rfl
  · rw [h]
    simp only [zoneLetterCodes, List.mem_cons, List.not_mem_nil, or_false] at hmem
    rcases hmem with rfl | rfl | rfl | rfl | rfl | rfl | rfl <;> decide

theorem map_cell_idem {g : Cell → Cell} (h : ∀ c, g (g c) = g c)
    (l : List Cell) : (l.map g).map g = l.map g := by
  rw [List.map_map]
  exact List.map_congr_left fun c _ => h c

theorem omap_cell_idem {g : Cell → Cell} (h : ∀ c, g (g c) = g c)
    (o : Option (List Cell)) :
    (o.map (List.map g)).map (List.map g) = o.map (List.map g) := by
  cases o with
  | none => rfl
  | some l =>
    show some ((l.map g).map g) = some (l.map g)
    rw [map_cell_idem h]

theorem zone_pass_list_idem (l : List Cell) :
    ((((l.map strColCell).map znCell).map strColCell).map znCell)
      = ((l.map strColCell).map znCell) := by
  simp only [List.map_map, Function.comp]
  exact List.map_congr_left fun c _ => zoneCell_pass_idem c

/-- C9. The Type/Value Cleaner pipeline is idempotent: applying
`prepare_dataframe` to its own output changes nothing. The hypotheses
restrict to frames where the header rename is well-defined (raw and
canonical header not both present — pandas fails on such frames). -/
theorem prepare_dataframe_idempotent (f : CFrame)
    (hz : ¬(f.lob_zone.isSome = true ∧ f.zone.isSome = true))
    (ht : ¬(f.trip_n.isSome = true ∧ f.trips_n.isSome = true))
    (hh : ¬(f.harv_n.isSome = true ∧ f.harvesters_n.isSome = true)) :
    prepare_dataframe (prepare_dataframe f) = prepare_dataframe f := by
  obtain ⟨d, y, sp, ge, z, po, co, wt, w, v, lz, tn, hn, tns, hns, ll, ru, ot⟩ := f
  simp only [prepare_dataframe, normalize_metrics, normalize_zone, clean_types,
    standardize_headers]
  rw [CFrame.mk.injEq]
  refine ⟨?_, ?_, ?_, ?_, ?_, ?_, ?_, ?_, rfl, rfl, rfl, rfl, rfl, ?_, ?_, ?_, ?_, rfl⟩
  · exact omap_cell_idem toDatetime_idem d
  · cases y with
    | some ycol =>
      show some (((ycol.map yearCoerce).map yearCoerce)) = some (ycol.map yearCoerce)
      rw [map_cell_idem yearCoerce_idem]
    | none =>
      cases d with
      | none => rfl
      | some dcol =>
        show some ((((dcol.map toDatetime).map dtYear).map yearCoerce).map yearCoerce)
          = some (((dcol.map toDatetime).map dtYear).map yearCoerce)
        rw [map_cell_idem yearCoerce_idem]
  · exact omap_cell_idem strColCell_idem sp
  · exact omap_cell_idem strColCell_idem ge
  · cases lz with
    | some lzcol =>
      show some ((((lzcol.map strColCell).map znCell).map strColCell).map znCell)
        = some (((lzcol.map strColCell).map znCell))
      rw [zone_pass_list_idem]
    | none =>
      cases z with
      | none => rfl
      | some zcol =>
        show some ((((zcol.map strColCell).map znCell).map strColCell).map znCell)
          = some (((zcol.map strColCell).map znCell))
        rw [zone_pass_list_idem]
  · exact omap_cell_idem strColCell_idem po
  · exact omap_cell_idem strColCell_idem co
  · exact omap_cell_idem strColCell_idem wt
  · cases tn <;> rfl
  · cases hn <;> rfl
  · cases w <;> rfl
  · cases v <;> rfl

/-- Witness for C9: a small frame with raw headers, text needing trimming,
a messy zone and numeric metrics is unchanged by a second cleaning pass. -/
theorem prepare_dataframe_idempotent_witness :
    (¬((CFrame.mk none none (some [Cell.str (strCodes " Lobster ")]) none none
        none none none (some [Cell.num 7]) none
        (some [Cell.str (strCodes " a ")]) (some [Cell.num 2]) none none none
        none none []).lob_zone.isSome = true ∧
      (CFrame.mk none none (some [Cell.str (strCodes " Lobster ")]) none none
        none none none (some [Cell.num 7]) none
        (some [Cell.str (strCodes " a ")]) (some [Cell.num 2]) none none none
        none none []).zone.isSome = true)) ∧
    prepare_dataframe (prepare_dataframe
      (CFrame.mk none none (some [Cell.str (strCodes " Lobster ")]) none none
        none none none (some [Cell.num 7]) none
        (some [Cell.str (strCodes " a ")]) (some [Cell.num 2]) none none none
        none none []))
      = prepare_dataframe
        (CFrame.mk none none (some [Cell.str (strCodes " Lobster ")]) none none
          none none none (some [Cell.num 7]) none
          (some [Cell.str (strCodes " a ")]) (some [Cell.num 2]) none none none
          none none []) :=
  ⟨by decide,
   prepare_dataframe_idempotent _ (by decide) (by decide) (by decide)⟩

/-- Witness for C7: a frame carrying only a packed `YYYYMM` column takes
the packed path (`202007 → 2020-07-01`) and ends up with a derived `year`
column. -/
theorem schema_normalizer_dates_witness :
    (pick_col (fYm.map Prod.fst) dateCands = none) ∧
    (pick_col (fYm.map Prod.fst) yearCands = none) ∧
    (pick_col (fYm.map Prod.fst) ymCands = some (strCodes "YYYYMM")) ∧
    getCol (standardize fYm) (strCodes "date")
      = some (((getCol fYm (strCodes "YYYYMM")).getD []).map synthDateYYYYMM) ∧
    hasCol (standardize fYm) (strCodes "year") = true ∧
    getCol (standardize fYm) (strCodes "date")
      = some [Cell.date ⟨2020, 7, 1⟩, Cell.na] ∧
    getCol (standardize fYm) (strCodes "year")
      = some [Cell.num 2020, Cell.na] :=
  ⟨by decide, by decide, by decide,
   (schema_normalizer_dates fYm).2.2.1 (strCodes "YYYYMM") (by decide)
     (Or.inl (by decide)) (by decide),
   (schema_normalizer_dates fYm).2.2.2.2.1 (Or.inr (Or.inr (by decide))),
   by decide, by decide⟩

/-- Counterexample for C8: a table containing both `pounds` and
`landed_weight_lbs` resolves the landed-quantity field from
`landed_weight_lbs`, not from `pounds`. -/
theorem pounds_priority_counterexample :
    pick_col [strCodes "pounds", strCodes "landed_weight_lbs"] valueCands
      = some (strCodes "landed_weight_lbs") ∧
    some (strCodes "landed_weight_lbs") ≠ some (strCodes "pounds") := by decide

/-- C8 (amended). The Column Resolver selects the candidate declared
earliest in the code's priority list `value, landings, landed_weight_lbs,
pounds, lbs, …` (exact match first); in particular a table containing both
`pounds` and `landed_weight_lbs` resolves the landed quantity from
`landed_weight_lbs`. -/
theorem pick_col_declared_priority (names cands : List Str) (i : Nat)
    (hi : i < cands.length)
    (hmem : names.contains (cands.get ⟨i, hi⟩) = true)
    (hearlier : ∀ j, j < i → names.contains (cands.getD j []) = false) :
    pick_col names cands = some (cands.get ⟨i, hi⟩) ∧
    pick_col [strCodes "pounds", strCodes "landed_weight_lbs"] valueCands
      = some (strCodes "landed_weight_lbs") := by
  constructor
  · unfold pick_col
    rw [find?_first cands i hi hmem (fun j hj => by
      rw [show cands.get ⟨j, by omega⟩ = cands.getD j [] from
        (List.getD_eq_getElem cands [] (by omega)).symm]
      exact hearlier j hj)]
  · decide

/-- Witness for the amended C8: with columns `pounds` and
`landed_weight_lbs`, candidate index 2 (`landed_weight_lbs`) is the first
present candidate and is selected. -/
theorem pick_col_declared_priority_witness :
    ([strCodes "pounds", strCodes "landed_weight_lbs"].contains
        (valueCands.get ⟨2, by decide⟩) = true) ∧
    pick_col [strCodes "pounds", strCodes "landed_weight_lbs"] valueCands
      = some (valueCands.get ⟨2, by decide⟩) :=
  ⟨by decide,
   (pick_col_declared_priority
     [strCodes "pounds", strCodes "landed_weight_lbs"] valueCands 2 (by decide)
     (by decide)
     (by intro j hj; interval_cases j <;> decide)).1⟩

/-- Counterexample for C6: a batch whose only defect is a negative weight
(`-5`) is rejected with `VErr.negativeValues "weight"` — the raised message
(`"Negative values detected in column weight"`) names the column and
carries no offending numeric value, so the error does not name `-5`. -/
theorem negative_error_names_column_not_value :
    validate dfNegW = Except.error (VErr.negativeValues "weight") ∧
    errYearsNamed (VErr.negativeValues "weight") = [] ∧
    ((-5 : ℚ) ∈ errYearsNamed (VErr.negativeValues "weight") → False) := by
  refine ⟨by decide, by decide, ?_⟩
  intro h
  simp [errYearsNamed] at h

/-- C6 (amended). `validate` accepts a batch exactly when every non-missing
year lies in 1900–2100 and no quantity/revenue entry is negative, and
otherwise rejects the whole batch (its result type admits no partial
acceptance): every offending year is named in the out-of-range error's
value list, while a negative `weight` is reported by naming that column. -/
theorem validate_rejects_batch (df : List VRow) :
    (validate df = Except.ok () ↔
      ((∀ r ∈ df, ∀ y, r.year = some y → 1900 ≤ y ∧ y ≤ 2100) ∧
       (∀ r ∈ df, ∀ q,
          (r.weight = some q ∨ r.value = some q ∨
           r.trip_n = some q ∨ r.harv_n = some q) → 0 ≤ q))) ∧
    (∀ y, (∃ r ∈ df, r.year = some y) → ¬(1900 ≤ y ∧ y ≤ 2100) →
      ∃ bad, validate df = Except.error (VErr.outOfRangeYears bad) ∧ y ∈ bad) ∧
    ((∀ r ∈ df, ∀ y, r.year = some y → 1900 ≤ y ∧ y ≤ 2100) →
      (∃ r ∈ df, ∃ q, r.weight = some q ∧ q < 0) →
      validate df = Except.error (VErr.negativeValues "weight")) := by
  refine ⟨?_, ?_, ?_⟩
  · constructor
    · intro h
      unfold validate at h
      split_ifs at h with h1 h2 h3 h4 h5
      · refine ⟨(allYears_iff df).mp h1, ?_⟩
        intro r hr q hq
        rcases hq with hq | hq | hq | hq
        · exact (hasNeg_false_iff df (·.weight)).mp
            (Bool.not_eq_true _ ▸ h2) r hr q hq
        · exact (hasNeg_false_iff df (·.value)).mp
            (Bool.not_eq_true _ ▸ h3) r hr q hq
        · exact (hasNeg_false_iff df (·.trip_n)).mp
            (Bool.not_eq_true _ ▸ h4) r hr q hq
        · exact (hasNeg_false_iff df (·.harv_n)).mp
            (Bool.not_eq_true _ ▸ h5) r hr q hq
    · rintro ⟨hy, hq⟩
      unfold validate
      rw [if_pos ((allYears_iff df).mpr hy)]
      rw [if_neg (by simp [(hasNeg_false_iff df (·.weight)).mpr
        (fun r hr q h => hq r hr q (Or.inl h))])]
      rw [if_neg (by simp [(hasNeg_false_iff df (·.value)).mpr
        (fun r hr q h => hq r hr q (Or.inr (Or.inl h)))])]
      rw [if_neg (by simp [(hasNeg_false_iff df (·.trip_n)).mpr
        (fun r hr q h => hq r hr q (Or.inr (Or.inr (Or.inl h))))])]
      rw [if_neg (by simp [(hasNeg_false_iff df (·.harv_n)).mpr
        (fun r hr q h => hq r hr q (Or.inr (Or.inr (Or.inr h))))])]
  · rintro y ⟨r, hr, hy⟩ hrange
    have hbadmem : y ∈ df.filterMap (·.year) :=
      List.mem_filterMap.mpr ⟨r, hr, hy⟩
    have hA : ((df.filterMap (·.year)).all yearOk) = false := by
      rw [← Bool.not_eq_true]
      intro hall
      exact hrange ((allYears_iff df).mp hall r hr y hy)
    unfold validate
    rw [if_neg (by simp [hA])]
    refine ⟨_, rfl, ?_⟩
    apply mem_uniqueKeepFirst
    apply List.mem_filter.mpr
    refine ⟨hbadmem, ?_⟩
    simp only [yearOk, Bool.not_eq_eq_eq_not, Bool.not_true, Bool.and_eq_false_iff,
      decide_eq_false_iff_not]
    by_cases h1 : (1900 : ℚ) ≤ y
    · exact Or.inr fun h2 => hrange ⟨h1, h2⟩
    · exact Or.inl h1
  · intro hy hneg
    obtain ⟨r, hr, q, hq, hqneg⟩ := hneg
    unfold validate
    rw [if_pos ((allYears_iff df).mpr hy)]
    rw [if_pos (hasNeg_true_of df (·.weight) hr hq hqneg)]

/-- Witness for the amended C6: the batch `[year = 1805]` is rejected with
an out-of-range-years error whose value list names `1805`. -/
theorem validate_rejects_batch_witness :
    ((∃ r ∈ df1805, r.year = some (1805 : ℚ)) ∧
      ¬((1900 : ℚ) ≤ 1805 ∧ (1805 : ℚ) ≤ 2100)) ∧
    (∃ bad, validate df1805 = Except.error (VErr.outOfRangeYears bad) ∧
      (1805 : ℚ) ∈ bad) ∧
    validate df1805 = Except.error (VErr.outOfRangeYears [1805]) :=
  ⟨⟨by decide, by decide⟩,
   (validate_rejects_batch df1805).2.1 1805 (by decide) (by decide),
   by decide⟩

/-- A feature whose total resolves to zero gets the baseline annotation:
`metric_total = 0.0` and fill `[15, 108, 141, 55]` (intensity 30 + 25). -/
theorem annotateFeature_of_total_zero (zdf : List (Str × ℚ))
    (props : List (Str × Jv)) (h : totalsGet zdf (zoneKey props) = 0) :
    annotateFeature zdf props = ⟨0, [15, 108, 141, 55]⟩ := by
  unfold annotateFeature
  rw [h, zero_div, mul_zero]
  split_ifs <;> rfl

/-- Counterexample for C4: the code keys a numeric `ZONE_ID` of `1` as the
string `"1"` (`str(z).strip().upper()`), not as the letter `"A"`. -/
theorem zone_id_one_keyed_as_digit_not_letter :
    zoneKey [(strCodes "ZONE_ID", Jv.jint 1)] = some (strCodes "1") ∧
    strCodes "1" ≠ strCodes "A" := by decide

/-- C4 (amended): the zone-key normalization stringifies raw values, so a
boundary collection whose region metadata uses key `ZONE_ID` with values
1 through 7 yields the zone-key sequence `"1"` through `"7"`, with no
integer-to-letter mapping. -/
theorem zone_id_values_stringified :
    ([1, 2, 3, 4, 5, 6, 7] : List Int).map
        (fun n => zoneKey [(strCodes "ZONE_ID", Jv.jint n)])
      = [some (strCodes "1"), some (strCodes "2"), some (strCodes "3"),
         some (strCodes "4"), some (strCodes "5"), some (strCodes "6"),
         some (strCodes "7")] := by decide

/-- Counterexample for C5: an unmatched boundary region (zone key `"H"`,
absent from the aggregate) receives exactly the same annotation as a
matched zone (`"A"`) whose total is zero — there is no `no_data` category
and no distinguishable inactive fill. -/
theorem unmatched_equals_zero_activity_annotation :
    annotateFeature zdfC5 [(strCodes "ZONE", Jv.jstr (strCodes "H"))]
      = annotateFeature zdfC5 [(strCodes "ZONE", Jv.jstr (strCodes "A"))] ∧
    annotateFeature zdfC5 [(strCodes "ZONE", Jv.jstr (strCodes "H"))]
      = ⟨0, [15, 108, 141, 55]⟩ := by
  have h1 := annotateFeature_of_total_zero zdfC5
    [(strCodes "ZONE", Jv.jstr (strCodes "H"))] (by decide)
  have h2 := annotateFeature_of_total_zero zdfC5
    [(strCodes "ZONE", Jv.jstr (strCodes "A"))] (by decide)
  exact ⟨h1.trans h2.symm, h1⟩

/-- C5 (amended): a boundary region whose zone key misses the aggregate
table is annotated with `metric_total = 0.0` and the baseline fill
`[15, 108, 141, 55]` — identical to the annotation of a matched zone whose
total is zero, with no `no_data` category produced. -/
theorem join_miss_zero_annotation (zdf : List (Str × ℚ))
    (props propsMatched : List (Str × Jv))
    (hmiss : (zoneKey props).bind (fun k => dictLookup (normZdf zdf) k) = none)
    (hzero : totalsGet zdf (zoneKey propsMatched) = 0) :
    annotateFeature zdf props = ⟨0, [15, 108, 141, 55]⟩ ∧
    annotateFeature zdf props = annotateFeature zdf propsMatched := by
  have h0 : totalsGet zdf (zoneKey props) = 0 := by
    unfold totalsGet
    rcases hk : zoneKey props with - | k
    · rfl
    · rw [hk] at hmiss
      have hmiss' : dictLookup (normZdf zdf) k = none := hmiss
      show (dictLookup (normZdf zdf) k).getD 0 = 0
      rw [hmiss']
      rfl
  exact ⟨annotateFeature_of_total_zero _ _ h0,
    (annotateFeature_of_total_zero _ _ h0).trans
      (annotateFeature_of_total_zero _ _ hzero).symm⟩

/-- Witness for the amended C5: with zones `A` (total 0) and `B` (total 5)
in the aggregate, the unmatched region `H` and the matched zero-activity
region `A` receive the same baseline annotation. -/
theorem join_miss_zero_annotation_witness :
    ((zoneKey [(strCodes "ZONE", Jv.jstr (strCodes "H"))]).bind
      (fun k => dictLookup (normZdf zdfC5) k) = none) ∧
    (annotateFeature zdfC5 [(strCodes "ZONE", Jv.jstr (strCodes "H"))]
        = ⟨0, [15, 108, 141, 55]⟩ ∧
      annotateFeature zdfC5 [(strCodes "ZONE", Jv.jstr (strCodes "H"))]
        = annotateFeature zdfC5 [(strCodes "ZONE", Jv.jstr (strCodes "A"))]) :=
  ⟨by decide,
   join_miss_zero_annotation zdfC5
     [(strCodes "ZONE", Jv.jstr (strCodes "H"))]
     [(strCodes "ZONE", Jv.jstr (strCodes "A"))] (by decide) (by decide)⟩

/-- C10. Applying the lookup never overwrites an existing zone: a record
whose `lob_zone` is present keeps it unchanged, whatever the lookup or the
override table map its port to. -/
theorem apply_lookup_preserves_existing_zone (df : List ARow)
    (lk : List (Str × Str)) (ov : Option (List (Str × Str))) (r : ARow)
    (z : Str) (hr : r ∈ df) (hz : r.lob_zone = some z) :
    applyRow lk ov r ∈ apply_port_zone_lookup df lk ov ∧
    (applyRow lk ov r).lob_zone = some z := by
  refine ⟨List.mem_map_of_mem _ hr, ?_⟩
  simp [applyRow, hz]

/-- Witness for C10: a record already in zone `A` keeps zone `A` even
though the lookup and the overrides both map its port elsewhere. -/
theorem apply_lookup_preserves_existing_zone_witness :
    ((⟨some (strCodes "P"), some (strCodes "A")⟩ : ARow)
        ∈ [(⟨some (strCodes "P"), some (strCodes "A")⟩ : ARow)]) ∧
    (applyRow [(strCodes "P", strCodes "B")] (some [(strCodes "P", strCodes "C")])
        ⟨some (strCodes "P"), some (strCodes "A")⟩).lob_zone
      = some (strCodes "A") := by
  refine ⟨by decide, ?_⟩
  exact (apply_lookup_preserves_existing_zone
    [⟨some (strCodes "P"), some (strCodes "A")⟩]
    [(strCodes "P", strCodes "B")] (some [(strCodes "P", strCodes "C")])
    ⟨some (strCodes "P"), some (strCodes "A")⟩ (strCodes "A")
    (by decide) (by decide)).2

end MFD

